import Mathlib

/-!
Shallow embedding of the object-storage reconciliation engine of
`mist.api` (`src/mist/api/clouds/controllers/objectstorage/base.py`)
and of the polling-schedule configuration of the main cloud controller
(`src/mist/api/clouds/controllers/main/base.py`).

External collaborators (the libcloud adapter, the per-item hook calls,
mongoengine save outcomes) are modelled as inputs: each provider item
carries the outcome its hook calls would have produced, and the pass is
a pure function of the store, those outcomes and the clock.
-/

namespace MistStorage

/-- A value of a record's `extra` mapping, abstracted by whether
`json.dumps` succeeds on it.  `jsonOk s` is a JSON-serializable value
(represented by its serialization `s`); `nonSerializable t` is a value
on which `json.dumps` raises `TypeError` and whose `str()` form is `t`. -/
inductive ExtraVal where
  | jsonOk (s : String)
  | nonSerializable (t : String)
deriving DecidableEq, Repr

/-- Whether `json.dumps` succeeds on the value. -/
def ExtraVal.serializable : ExtraVal → Bool
  | .jsonOk _ => true
  | .nonSerializable _ => false

/-- The JSON-encoding step of `_list_storage` (base.py lines 137-142):
a value on which `json.dumps` raises `TypeError` is replaced by its
`str()` form. -/
def coerceVal : ExtraVal → ExtraVal
  | .jsonOk s => .jsonOk s
  | .nonSerializable t => .jsonOk t

/-- The `extra` mapping of a record / provider item. -/
abbrev Extra := List (String × ExtraVal)

/-- Object-storage content (the `ObjectStorageItem` list), abstracted:
only identity of the attached content matters to the claims. -/
abbrev Content := List String

/-- Outcome of `store.save()` for one item, as raised by mongoengine. -/
inductive SaveOutcome where
  | ok
  | notUnique
  | validationError
deriving DecidableEq, Repr

/-- One provider-returned container together with the outcomes of the
external calls made while processing it: `contentFetch` is the result of
`_list_storage__fetch_storage_content` (`Except.error` = `LibcloudError`),
`saveOutcome` the result of `store.save()`. -/
structure Item where
  name : String
  extra : Extra
  contentFetch : Except Unit Content
  saveOutcome : SaveOutcome
deriving Repr

/-- A persisted `ObjectStorage` document.  Modelled from the spec: the
mongoengine model itself is not part of the source; fields follow the
spec's CanonicalResource shape (`id`, owning cloud, `name`, `extra`,
`content`, `missing_since`, with `missing_since` defaulting to null). -/
structure StoreRec where
  id : String
  cloud : String
  name : String
  extra : Extra := []
  content : Content := []
  missing_since : Option Nat := none
deriving DecidableEq, Repr

/-- The object-storage collection. -/
abbrev DB := List StoreRec

/-- Typed exceptions crossing the reconciliation boundary. -/
inductive PassErr where
  | cloudUnavailable
  | badRequest
  | objectStorageExists
deriving DecidableEq, Repr

/-- `ObjectStorage.objects.get(cloud=self.cloud, name=...)`
(base.py lines 103-105). -/
def findRec (c n : String) (db : DB) : Option StoreRec :=
  db.find? (fun r => r.cloud = c && r.name = n)

/-- Identifier given to the `k`-th freshly created document (mongoengine
assigns an opaque uuid; the model supplies a deterministic injective
stream of opaque ids). -/
def freshId (k : Nat) : String := "oid" ++ String.mk (List.replicate k 'i')

/-- The JSON-encoding loop over a whole `extra` mapping
(base.py lines 137-142). -/
def coerceExtra (e : Extra) : Extra := e.map (fun kv => (kv.1, coerceVal kv.2))

/-- `store.save()`: upsert by primary key `id`. -/
def saveRec (s : StoreRec) (db : DB) : DB :=
  if db.any (fun r => r.id = s.id) then
    db.map (fun r => if r.id = s.id then s else r)
  else db ++ [s]

/-- State threaded through the item loop of `_list_storage`:
the collection, the fresh-id counter, the `storage` accumulator and the
`new_storage` accumulator of the source. -/
structure LoopSt where
  db : DB
  fresh : Nat
  storage : List StoreRec
  newStorage : List StoreRec
deriving Repr

/-- One iteration of the item loop of `_list_storage`
(base.py lines 101-155): resolve or create the record by `(cloud, name)`,
copy `extra`, attach content (a `LibcloudError` skips the item),
apply the no-op base-class postparse hook, JSON-coerce `extra`,
then save (a `ValidationError` raises `BadRequestError`, a
`NotUniqueError` raises `ObjectStorageExistsError`). -/
def processItem (c : String) (st : LoopSt) (it : Item) : Except PassErr LoopSt :=
  let found := findRec c it.name st.db
  let store0 : StoreRec :=
    match found with
    | some r => r
    | none => { id := freshId st.fresh, cloud := c, name := it.name }
  let st1 : LoopSt :=
    match found with
    | some _ => st
    | none => { st with fresh := st.fresh + 1,
                        newStorage := st.newStorage ++ [store0] }
  match it.contentFetch with
  | .error _ => .ok st1
  | .ok content =>
      let store : StoreRec :=
        { store0 with
            extra := coerceExtra it.extra,
            content := content }
      match it.saveOutcome with
      | .validationError => .error .badRequest
      | .notUnique => .error .objectStorageExists
      | .ok => .ok { st1 with db := saveRec store st1.db,
                              storage := st1.storage ++ [store] }

/-- The item loop of `_list_storage`; on an aborting exception the state
reached so far is what the collection holds (partial writes persist). -/
def runItems (c : String) (st : LoopSt) : List Item → LoopSt × Option PassErr
  | [] => (st, none)
  | it :: rest =>
      match processItem c st it with
      | .error e => (st, some e)
      | .ok st' => runItems c st' rest

/-- The first bulk update of base.py lines 157-161: set `missing_since`
to now on every record of the cloud whose name is not among the names of
this pass's `storage` list and whose `missing_since` is null. -/
def markMissing (c : String) (now : Nat) (names : List String) (db : DB) : DB :=
  db.map (fun r =>
    if r.cloud == c && !(names.contains r.name) && r.missing_since.isNone
    then { r with missing_since := some now } else r)

/-- The second bulk update of base.py lines 162-164, exactly as written:
`id__in=[s.name for s in storage]` — it clears `missing_since` on records
whose id (not name) is among the names of this pass's `storage` list. -/
def clearMissingById (c : String) (names : List String) (db : DB) : DB :=
  db.map (fun r =>
    if r.cloud == c && names.contains r.id
    then { r with missing_since := none } else r)

/-- The fresh-id stream from `fresh` on is disjoint from the ids already
present in the collection (mongoengine never re-issues an id). -/
def IdsFresh (db : DB) (fresh : Nat) : Prop :=
  ∀ r ∈ db, ∀ k, fresh ≤ k → r.id ≠ freshId k

/-- The `(cloud, name)` unique index of the `ObjectStorage` collection,
restricted to cloud `c`: two records of the cloud with one name coincide. -/
def UniqueNames (c : String) (db : DB) : Prop :=
  ∀ r ∈ db, ∀ r' ∈ db, r.cloud = c → r'.cloud = c → r.name = r'.name → r = r'

/-- An id with no dash, so that the composite snapshot key
`id ++ "-" ++ name` determines `(id, name)`. -/
def Dashless (s : String) : Prop := '-' ∉ s.data

/-- Result of `_list_storage`. -/
structure InnerResult where
  db : DB
  fresh : Nat
  storage : List StoreRec
  newStorage : List StoreRec
  err : Option PassErr
deriving DecidableEq, Repr

/-- Embedding of `_list_storage` (base.py lines 64-169).  `fetched` is
the outcome of `_list_storage__fetch_storage`: any exception there is
re-raised as `CloudUnavailableError` before any store access.  On a
mid-loop abort the two bulk `missing_since` updates never run.  The
final `mapper.update(new_storage)` touches the RBAC index only, not the
store. -/
def listStorageInner (c : String) (now : Nat)
    (fetched : Except Unit (List Item)) (db : DB) (fresh : Nat) : InnerResult :=
  match fetched with
  | .error _ => ⟨db, fresh, [], [], some .cloudUnavailable⟩
  | .ok items =>
    let run := runItems c ⟨db, fresh, [], []⟩ items
    match run.2 with
    | some e => ⟨run.1.db, run.1.fresh, run.1.storage, run.1.newStorage, some e⟩
    | none =>
        let names := run.1.storage.map (·.name)
        let db2 := clearMissingById c names (markMissing c now names run.1.db)
        ⟨db2, run.1.fresh, run.1.storage, run.1.newStorage, none⟩

/-- Embedding of `list_cached_storage` (base.py lines 182-187):
`ObjectStorage.objects(cloud=self.cloud, missing_since=None)`. -/
def list_cached_storage (c : String) (db : DB) : List StoreRec :=
  db.filter (fun r => r.cloud == c && r.missing_since.isNone)

/-- The composite snapshot key `'%s-%s' % (s.id, s.name)`
(base.py lines 39 and 47). -/
def snapKey (r : StoreRec) : String := r.id ++ "-" ++ r.name

/-- A snapshot: the dict keyed by `snapKey` built in `list_storage`. -/
abbrev Snapshot := List (String × StoreRec)

def snapshotOf (rs : List StoreRec) : Snapshot := rs.map (fun r => (snapKey r, r))

/-- Snapshot lookup (python dict access). -/
def slookup (k : String) : Snapshot → Option StoreRec
  | [] => none
  | kv :: rest => if kv.1 = k then some kv.2 else slookup k rest

/-- One RFC-6902-style operation. -/
inductive PatchOp where
  | add (key : String) (r : StoreRec)
  | remove (key : String)
  | replace (key : String) (r : StoreRec)
deriving DecidableEq, Repr

/-- Modelled from the spec: `jsonpatch.JsonPatch.from_diff(before, after)`
— one `add` per key only in `after`, one `remove` per key only in
`before`, one `replace` per key present in both with changed value. -/
def snapDiff (before after : Snapshot) : List PatchOp :=
  (after.filterMap (fun kv =>
     match slookup kv.1 before with
     | none => some (.add kv.1 kv.2)
     | some old => if old = kv.2 then none else some (.replace kv.1 kv.2)))
  ++ (before.filterMap (fun kv =>
     match slookup kv.1 after with
     | none => some (.remove kv.1)
     | some _ => none))

/-- Result of `list_storage`: the collection, the fresh-id counter, the
periodic task's `last_success`, the returned list, whether
`log_observations` and `amqp_publish_user` were called, and the raised
exception if any. -/
structure OuterResult where
  db : DB
  fresh : Nat
  lastSuccess : Option Nat
  storage : List StoreRec
  didLog : Bool
  didPublish : Bool
  err : Option PassErr
deriving DecidableEq, Repr

/-- Embedding of `list_storage` (base.py lines 22-62).
`PeriodicTaskInfo.task_runner` is modelled from the spec (the concurrency
model is not part of the source): on success it persists `last_success`;
on an exception the exception propagates and `last_success` is unchanged.
`first_run` is true iff the task has no `last_success` (line 37).
`obsLogsEnabled` is `cloud.observation_logs_enabled`, `ownerListening`
the result of `amqp_owner_listening`. -/
def list_storage (c : String) (now : Nat) (fetched : Except Unit (List Item))
    (obsLogsEnabled ownerListening : Bool)
    (db : DB) (fresh : Nat) (lastSuccess : Option Nat) : OuterResult :=
  let first_run := lastSuccess.isNone
  let cached := snapshotOf (list_cached_storage c db)
  let inner := listStorageInner c now fetched db fresh
  match inner.err with
  | some e => ⟨inner.db, inner.fresh, lastSuccess, [], false, false, some e⟩
  | none =>
      if cached.isEmpty && inner.storage.isEmpty then
        ⟨inner.db, inner.fresh, some now, inner.storage, false, false, none⟩
      else
        let patch := snapDiff cached (snapshotOf inner.storage)
        if patch.isEmpty then
          ⟨inner.db, inner.fresh, some now, inner.storage, false, false, none⟩
        else
          ⟨inner.db, inner.fresh, some now, inner.storage,
            !first_run && obsLogsEnabled, ownerListening, none⟩

end MistStorage

namespace MistMain

/-- A Python value passed to `set_polling_interval`: an `int`, or a value
of any other type (`isinstance(interval, int)` fails on it). -/
inductive PyVal where
  | int (i : Int)
  | nonInt (t : String)
deriving DecidableEq, Repr

/-- The one cloud field `set_polling_interval` touches. -/
structure CloudDoc where
  polling_interval : Int := 0
deriving DecidableEq, Repr

inductive MainErr where
  | badRequest
deriving DecidableEq, Repr

/-- Embedding of `set_polling_interval` (main/base.py lines 366-373):
a non-int raises `BadRequestError`; an int that is nonzero and not in
`600 <= interval <= 3600 * 12` raises `BadRequestError`; otherwise the
value is stored and the cloud saved. -/
def set_polling_interval (cloud : CloudDoc) (v : PyVal) : Except MainErr CloudDoc :=
  match v with
  | .nonInt _ => .error .badRequest
  | .int i =>
      if i ≠ 0 ∧ ¬ (600 ≤ i ∧ i ≤ 3600 * 12) then .error .badRequest
      else .ok { cloud with polling_interval := i }

/-- Resource kinds with polling schedules. -/
inductive Kind where
  | machines | networks | zones | volumes | locations | sizes | images
deriving DecidableEq, Repr

/-- A polling schedule entry.  Modelled from the spec: the poller models
are not part of the source; `interval = none` means the schedule keeps
the poller model's own default, `some n` that `set_default_interval n`
was called on it. -/
structure Schedule where
  kind : Kind
  interval : Option Nat := none
deriving DecidableEq, Repr

/-- Embedding of `add_polling_schedules` (main/base.py lines 375-423):
machines always; networks / zones / volumes when the controller has the
corresponding sub-controller (zones also require `dns_enabled`); then
locations, sizes and images each with `set_default_interval(60*60*24)`. -/
def add_polling_schedules (hasNetworkCtl hasDnsCtl dnsEnabled hasStorageCtl : Bool) :
    List Schedule :=
  [({ kind := .machines } : Schedule)]
  ++ (if hasNetworkCtl then [({ kind := .networks } : Schedule)] else [])
  ++ (if hasDnsCtl && dnsEnabled then [({ kind := .zones } : Schedule)] else [])
  ++ (if hasStorageCtl then [({ kind := .volumes } : Schedule)] else [])
  ++ [({ kind := .locations, interval := some (60 * 60 * 24) } : Schedule),
      ({ kind := .sizes, interval := some (60 * 60 * 24) } : Schedule),
      ({ kind := .images, interval := some (60 * 60 * 24) } : Schedule)]

end MistMain

namespace MistStorage

theorem coerceVal_serializable (v : ExtraVal) : (coerceVal v).serializable = true := by
  cases v <;> rfl

/-- Claim C2: if the provider-adapter listing call raises any exception, the
pass aborts with `CloudUnavailableError`; the store is byte-for-byte
unchanged, nothing is returned, logged or published, and `last_success`
is not recorded. -/
theorem c2_fetch_error_fail_closed (c : String) (now : Nat)
    (obsL ownL : Bool) (db : DB) (fresh : Nat) (ls : Option Nat) :
    list_storage c now (.error ()) obsL ownL db fresh ls =
      ⟨db, fresh, ls, [], false, false, some .cloudUnavailable⟩ := rfl

/-- Claim C1 (failing evaluation): the store holds one record of cloud `c`
named `b` with `missing_since = 5`; the provider again returns `b`; the
pass succeeds, yet the record ends with `missing_since = 5`, not null —
the clearing query compares record ids against container names. -/
theorem c1_present_record_stays_missing :
    (listStorageInner "c" 10 (.ok [⟨"b", [], .ok [], .ok⟩])
        [⟨"oid0", "c", "b", [], [], some 5⟩] 1) =
      ⟨[⟨"oid0", "c", "b", [], [], some 5⟩], 1,
       [⟨"oid0", "c", "b", [], [], some 5⟩], [], none⟩ := by decide

/-- Claim C3 (counterexample): on the first-ever pass (`last_success`
absent) with a non-empty patch and a listening owner, `list_storage`
does call `amqp_publish_user` — publishing is not suppressed on first
run, only the observation log is. -/
theorem c3_first_run_publishes :
    (list_storage "c" 10 (.ok [⟨"b", [], .ok [], .ok⟩])
        true true [] 0 none).didPublish = true ∧
    (list_storage "c" 10 (.ok [⟨"b", [], .ok [], .ok⟩])
        true true [] 0 none).err = none := by decide

/-- Claim C3 (amended): the first-ever successful pass never triggers an
observation-log entry; the publish call is not suppressed on first run. -/
theorem c3_first_run_no_observation_log (c : String) (now : Nat)
    (fetched : Except Unit (List Item)) (obsL ownL : Bool)
    (db : DB) (fresh : Nat) :
    (list_storage c now fetched obsL ownL db fresh none).didLog = false := by
  simp only [list_storage]
  split
  · rfl
  · split
    · rfl
    · split
      · rfl
      · simp

/-- Claim C5 (counterexample): with two provider items where persisting
the first raises a uniqueness conflict, the pass aborts with
`ObjectStorageExistsError` and the second item is never processed or
persisted: the store stays empty and nothing is returned. -/
theorem c5_conflict_aborts_pass :
    (listStorageInner "c" 10
        (.ok [⟨"a", [], .ok [], .notUnique⟩, ⟨"b", [], .ok [], .ok⟩])
        [] 0) = ⟨[], 0, [], [], some .objectStorageExists⟩ := by decide

/-- Claim C8 (counterexample): a record of the cloud whose
`missing_since` is set is excluded from `list_cached_storage` — the
cached listing does not include currently-missing records. -/
theorem c8_cached_excludes_missing :
    list_cached_storage "c" [⟨"oid0", "c", "b", [], [], some 5⟩] = [] ∧
    (StoreRec.mk "oid0" "c" "b" [] [] (some 5)).missing_since.isSome = true := by
  decide

end MistStorage

namespace MistMain

/-- Claim C9 (counterexample): `set_polling_interval` accepts the integer
`0`, which lies outside `[600, 43200]`, and stores it — no
`BadRequestError` is raised and `polling_interval` is changed. -/
theorem c9_zero_interval_accepted :
    set_polling_interval ⟨700⟩ (.int 0) = .ok ⟨0⟩ ∧
    ¬ (600 ≤ (0 : Int) ∧ (0 : Int) ≤ 43200) := ⟨rfl, by decide⟩

/-- Claim C9 (amended): a non-integer raises `BadRequestError`; an
integer is stored iff it is `0` or lies in `[600, 43200]`, otherwise
`BadRequestError` is raised and the cloud is unchanged; and
`add_polling_schedules` gives the locations, sizes and images schedules
a default interval of 24 hours (86400 s). -/
theorem c9_polling_interval_rules :
    (∀ (cl : CloudDoc) (t : String),
      set_polling_interval cl (.nonInt t) = .error .badRequest) ∧
    (∀ (cl : CloudDoc) (i : Int),
      set_polling_interval cl (.int i) =
        if i = 0 ∨ (600 ≤ i ∧ i ≤ 43200) then
          .ok { cl with polling_interval := i }
        else .error .badRequest) ∧
    (∀ hn hd de hs : Bool,
      (add_polling_schedules hn hd de hs).filter
          (fun s => s.kind == Kind.locations || s.kind == Kind.sizes ||
                    s.kind == Kind.images) =
        [⟨.locations, some 86400⟩, ⟨.sizes, some 86400⟩,
         ⟨.images, some 86400⟩]) := by
  refine ⟨fun cl t => rfl, fun cl i => ?_, by decide⟩
  simp only [set_polling_interval]
  split_ifs <;> first | rfl | (exfalso; omega)

end MistMain

namespace MistStorage

theorem freshId_inj {k k' : Nat} (h : freshId k = freshId k') : k = k' := by
  have hd := congrArg String.data h
  simp only [freshId, String.data_append] at hd
  have h2 : List.replicate k 'i' = List.replicate k' 'i' :=
    List.append_cancel_left hd
  have h3 := congrArg List.length h2
  simpa using h3

theorem dashless_freshId (k : Nat) : Dashless (freshId k) := by
  simp only [Dashless, freshId, String.data_append]
  intro hmem
  rcases List.mem_append.1 hmem with h | h
  · exact absurd h (by decide)
  · exact absurd (List.eq_of_mem_replicate h) (by decide)

theorem coerceExtra_serializable {e : Extra} :
    ∀ kv ∈ coerceExtra e, kv.2.serializable = true := by
  intro kv hkv
  rcases List.mem_map.1 hkv with ⟨x, _, rfl⟩
  exact coerceVal_serializable _

theorem findRec_some {c n : String} {db : DB} {r : StoreRec}
    (h : findRec c n db = some r) : r ∈ db ∧ r.cloud = c ∧ r.name = n := by
  refine ⟨List.mem_of_find?_eq_some h, ?_, ?_⟩ <;>
    · have hp := List.find?_some h
      simp only [Bool.and_eq_true, decide_eq_true_eq] at hp
      first | exact hp.1 | exact hp.2

theorem findRec_unique {c n : String} {r : StoreRec} :
    ∀ {db : DB}, r ∈ db → r.cloud = c → r.name = n →
      (∀ r' ∈ db, r'.cloud = c → r'.name = n → r' = r) →
      findRec c n db = some r := by
  intro db
  induction db with
  | nil => intro h; cases h
  | cons x xs ih =>
      intro hmem hc hn huniq
      by_cases hx : x.cloud = c ∧ x.name = n
      · have hxr : x = r := huniq x (List.mem_cons_self x xs) hx.1 hx.2
        unfold findRec
        rw [List.find?_cons_of_pos]
        · rw [hxr]
        · simp [hx.1, hx.2]
      · have hr' : r ∈ xs := by
          rcases List.mem_cons.1 hmem with rfl | h
          · exact absurd ⟨hc, hn⟩ hx
          · exact h
        unfold findRec
        rw [List.find?_cons_of_neg]
        · exact ih hr' hc hn (fun r' h' => huniq r' (List.mem_cons_of_mem _ h'))
        · simp only [Bool.and_eq_true, decide_eq_true_eq]
          exact hx

theorem mem_saveRec {s r : StoreRec} {db : DB} (h : r ∈ saveRec s db) :
    r = s ∨ r ∈ db := by
  unfold saveRec at h
  split at h
  · rcases List.mem_map.1 h with ⟨x, hx, hxe⟩
    by_cases hid : x.id = s.id
    · rw [if_pos hid] at hxe
      exact Or.inl hxe.symm
    · rw [if_neg hid] at hxe
      exact Or.inr (hxe ▸ hx)
  · rcases List.mem_append.1 h with h | h
    · exact Or.inr h
    · exact Or.inl (by simpa using h)

theorem saveRec_mem_self (s : StoreRec) (db : DB) : s ∈ saveRec s db := by
  unfold saveRec
  split
  · next hany =>
      rcases List.any_eq_true.1 hany with ⟨x, hx, hxid⟩
      simp only [decide_eq_true_eq] at hxid
      exact List.mem_map.2 ⟨x, hx, by rw [if_pos hxid]⟩
  · exact List.mem_append.2 (Or.inr (List.mem_singleton.2 rfl))

theorem saveRec_mem_of_ne {s r : StoreRec} {db : DB} (h : r ∈ db)
    (hne : r.id ≠ s.id) : r ∈ saveRec s db := by
  unfold saveRec
  split
  · exact List.mem_map.2 ⟨r, h, by rw [if_neg hne]⟩
  · exact List.mem_append.2 (Or.inl h)

theorem saveRec_forall {s : StoreRec} {db : DB} {P : StoreRec → Prop}
    (hdb : ∀ r ∈ db, P r) (hs : P s) : ∀ r ∈ saveRec s db, P r :=
  fun r hr => (mem_saveRec hr).elim (fun h => h ▸ hs) (hdb r)

end MistStorage

namespace MistStorage

theorem processItem_skip_found {c : String} {st : LoopSt} {it : Item}
    {r : StoreRec} (hf : findRec c it.name st.db = some r)
    (h : it.contentFetch = .error ()) : processItem c st it = .ok st := by
  simp [processItem, hf, h]

theorem processItem_skip_new {c : String} {st : LoopSt} {it : Item}
    (hf : findRec c it.name st.db = none)
    (h : it.contentFetch = .error ()) :
    processItem c st it = .ok { st with
      fresh := st.fresh + 1,
      newStorage := st.newStorage ++
        [{ id := freshId st.fresh, cloud := c, name := it.name }] } := by
  simp [processItem, hf, h]

theorem processItem_save_found {c : String} {st : LoopSt} {it : Item}
    {r : StoreRec} {co : Content} (hf : findRec c it.name st.db = some r)
    (hc : it.contentFetch = .ok co) (hs : it.saveOutcome = .ok) :
    processItem c st it = .ok { st with
      db := saveRec { r with extra := coerceExtra it.extra, content := co } st.db,
      storage := st.storage ++
        [{ r with extra := coerceExtra it.extra, content := co }] } := by
  simp [processItem, hf, hc, hs]

theorem processItem_save_new {c : String} {st : LoopSt} {it : Item}
    {co : Content} (hf : findRec c it.name st.db = none)
    (hc : it.contentFetch = .ok co) (hs : it.saveOutcome = .ok) :
    processItem c st it = .ok
      { db := saveRec { id := freshId st.fresh, cloud := c, name := it.name,
                        extra := coerceExtra it.extra, content := co,
                        missing_since := none } st.db,
        fresh := st.fresh + 1,
        storage := st.storage ++
          [{ id := freshId st.fresh, cloud := c, name := it.name,
             extra := coerceExtra it.extra, content := co,
             missing_since := none }],
        newStorage := st.newStorage ++
          [{ id := freshId st.fresh, cloud := c, name := it.name }] } := by
  simp [processItem, hf, hc, hs]

theorem processItem_conflict {c : String} {st : LoopSt} {it : Item}
    {co : Content} (hc : it.contentFetch = .ok co)
    (hs : it.saveOutcome = .notUnique) :
    processItem c st it = .error .objectStorageExists := by
  cases hf : findRec c it.name st.db <;> simp [processItem, hf, hc, hs]

theorem runItems_cons_ok {c : String} {st st' : LoopSt} {it : Item}
    {rest : List Item} (h : processItem c st it = .ok st') :
    runItems c st (it :: rest) = runItems c st' rest := by
  simp [runItems, h]

theorem runItems_cons_err {c : String} {st : LoopSt} {it : Item}
    {rest : List Item} {e : PassErr} (h : processItem c st it = .error e) :
    runItems c st (it :: rest) = (st, some e) := by
  simp [runItems, h]

theorem runItems_append_ok {c : String} {l1 l2 : List Item} :
    ∀ {st st1 : LoopSt}, runItems c st l1 = (st1, none) →
      runItems c st (l1 ++ l2) = runItems c st1 l2 := by
  induction l1 with
  | nil =>
      intro st st1 h
      simp only [runItems] at h
      cases h
      rfl
  | cons it rest ih =>
      intro st st1 h
      cases hp : processItem c st it with
      | error e => rw [runItems_cons_err hp] at h; cases h
      | ok st' =>
          rw [runItems_cons_ok hp] at h
          rw [List.cons_append, runItems_cons_ok hp]
          exact ih h

theorem runItems_append_err {c : String} {l1 l2 : List Item} :
    ∀ {st st1 : LoopSt} {e : PassErr}, runItems c st l1 = (st1, some e) →
      runItems c st (l1 ++ l2) = (st1, some e) := by
  induction l1 with
  | nil =>
      intro st st1 e h
      simp only [runItems] at h
      cases h
  | cons it rest ih =>
      intro st st1 e h
      cases hp : processItem c st it with
      | error e' =>
          rw [runItems_cons_err hp] at h
          rw [List.cons_append, runItems_cons_err hp]
          exact h
      | ok st' =>
          rw [runItems_cons_ok hp] at h
          rw [List.cons_append, runItems_cons_ok hp]
          exact ih h

theorem runItems_ok_of_saves {c : String} :
    ∀ {items : List Item} {st : LoopSt},
      (∀ it ∈ items, it.saveOutcome = .ok) →
      (runItems c st items).2 = none := by
  intro items
  induction items with
  | nil => intro st _; rfl
  | cons it rest ih =>
      intro st h
      have hit := h it (List.mem_cons_self it rest)
      have hrest : ∀ x ∈ rest, x.saveOutcome = .ok :=
        fun x hx => h x (List.mem_cons_of_mem _ hx)
      cases hcf : it.contentFetch with
      | error e =>
          cases e
          cases hf : findRec c it.name st.db with
          | some r => rw [runItems_cons_ok (processItem_skip_found hf hcf)]; exact ih hrest
          | none => rw [runItems_cons_ok (processItem_skip_new hf hcf)]; exact ih hrest
      | ok co =>
          cases hf : findRec c it.name st.db with
          | some r =>
              rw [runItems_cons_ok (processItem_save_found hf hcf hit)]
              exact ih hrest
          | none =>
              rw [runItems_cons_ok (processItem_save_new hf hcf hit)]
              exact ih hrest

end MistStorage

namespace MistStorage

theorem processItem_invalid {c : String} {st : LoopSt} {it : Item}
    {co : Content} (hc : it.contentFetch = .ok co)
    (hs : it.saveOutcome = .validationError) :
    processItem c st it = .error .badRequest := by
  cases hf : findRec c it.name st.db <;> simp [processItem, hf, hc, hs]

theorem processItem_skip {c : String} {st : LoopSt} {it : Item}
    (h : it.contentFetch = .error ()) :
    ∃ st', processItem c st it = .ok st' ∧ st'.db = st.db ∧
      st'.storage = st.storage ∧ st.fresh ≤ st'.fresh := by
  cases hf : findRec c it.name st.db with
  | some r => exact ⟨st, processItem_skip_found hf h, rfl, rfl, Nat.le_refl _⟩
  | none => exact ⟨_, processItem_skip_new hf h, rfl, rfl, Nat.le_succ _⟩

theorem processItem_save {c : String} {st : LoopSt} {it : Item} {co : Content}
    (hc : it.contentFetch = .ok co) (hs : it.saveOutcome = .ok) :
    ∃ s st', processItem c st it = .ok st' ∧
      st'.db = saveRec s st.db ∧ st'.storage = st.storage ++ [s] ∧
      st.fresh ≤ st'.fresh ∧
      s.cloud = c ∧ s.name = it.name ∧ s.content = co ∧
      s.extra = coerceExtra it.extra ∧
      ((∃ r, findRec c it.name st.db = some r ∧ s.id = r.id ∧
          s.missing_since = r.missing_since ∧ st'.fresh = st.fresh) ∨
        (findRec c it.name st.db = none ∧ s.id = freshId st.fresh ∧
          s.missing_since = none ∧ st'.fresh = st.fresh + 1)) := by
  cases hf : findRec c it.name st.db with
  | some r =>
      obtain ⟨_, hcl, hnm⟩ := findRec_some hf
      exact ⟨{ r with extra := coerceExtra it.extra, content := co }, _,
        processItem_save_found hf hc hs, rfl, rfl, Nat.le_refl _,
        hcl, hnm, rfl, rfl, Or.inl ⟨r, rfl, rfl, rfl, rfl⟩⟩
  | none =>
      exact ⟨{ id := freshId st.fresh, cloud := c, name := it.name,
               extra := coerceExtra it.extra, content := co,
               missing_since := none }, _,
        processItem_save_new hf hc hs, rfl, rfl, Nat.le_succ _,
        rfl, rfl, rfl, rfl, Or.inr ⟨rfl, rfl, rfl, rfl⟩⟩

theorem runItems_storage {c : String} :
    ∀ {items : List Item} {st : LoopSt},
      ∃ L, (runItems c st items).1.storage = st.storage ++ L ∧
        ∀ s ∈ L, s.cloud = c ∧ ∃ it ∈ items, s.name = it.name ∧
          s.extra = coerceExtra it.extra ∧
          ∃ co, it.contentFetch = .ok co ∧ s.content = co := by
  intro items
  induction items with
  | nil =>
      intro st
      exact ⟨[], by simp [runItems], by simp⟩
  | cons it rest ih =>
      intro st
      cases hcf : it.contentFetch with
      | error e =>
          cases e
          obtain ⟨st', hp, _, hstor, _⟩ := @processItem_skip c st _ hcf
          rw [runItems_cons_ok hp]
          obtain ⟨L, hL, hP⟩ := @ih st'
          refine ⟨L, by rw [hL, hstor], fun s hs => ?_⟩
          obtain ⟨h1, itx, hitx, h2⟩ := hP s hs
          exact ⟨h1, itx, List.mem_cons_of_mem _ hitx, h2⟩
      | ok co =>
          cases hso : it.saveOutcome with
          | ok =>
              obtain ⟨s, st', hp, _, hstor, _, hcl, hnm, hcont, hex, _⟩ :=
                @processItem_save c st _ _ hcf hso
              rw [runItems_cons_ok hp]
              obtain ⟨L, hL, hP⟩ := @ih st'
              refine ⟨s :: L, ?_, fun x hx => ?_⟩
              · rw [hL, hstor]
                simp
              · rcases List.mem_cons.1 hx with rfl | hx
                · exact ⟨hcl, it, List.mem_cons_self it rest, hnm, hex,
                    co, hcf, hcont⟩
                · obtain ⟨h1, itx, hitx, h2⟩ := hP x hx
                  exact ⟨h1, itx, List.mem_cons_of_mem _ hitx, h2⟩
          | notUnique =>
              rw [runItems_cons_err (processItem_conflict hcf hso)]
              exact ⟨[], by simp, by simp⟩
          | validationError =>
              rw [runItems_cons_err (processItem_invalid hcf hso)]
              exact ⟨[], by simp, by simp⟩

theorem runItems_preserve {c : String} {r : StoreRec} :
    ∀ {items : List Item} {st : LoopSt},
      r ∈ st.db →
      (∀ x ∈ st.db, x.id = r.id → x = r) →
      (∀ k, st.fresh ≤ k → r.id ≠ freshId k) →
      (∀ it ∈ items, it.name ≠ r.name ∨ it.contentFetch = .error ()) →
      r ∈ (runItems c st items).1.db ∧
        ∀ x ∈ (runItems c st items).1.db, x.id = r.id → x = r := by
  intro items
  induction items with
  | nil => intro st hmem huniq _ _; exact ⟨hmem, huniq⟩
  | cons it rest ih =>
      intro st hmem huniq hfr hnames
      have hrest : ∀ x ∈ rest, x.name ≠ r.name ∨ x.contentFetch = .error () :=
        fun x hx => hnames x (List.mem_cons_of_mem _ hx)
      cases hcf : it.contentFetch with
      | error e =>
          cases e
          obtain ⟨st', hp, hdb, _, hfr'⟩ := @processItem_skip c st _ hcf
          rw [runItems_cons_ok hp]
          have hmem' : r ∈ st'.db := by rw [hdb]; exact hmem
          have huniq' : ∀ x ∈ st'.db, x.id = r.id → x = r := by
            rw [hdb]; exact huniq
          exact ih hmem' huniq' (fun k hk => hfr k (le_trans hfr' hk)) hrest
      | ok co =>
          cases hso : it.saveOutcome with
          | ok =>
              obtain ⟨s, st', hp, hdb, _, hfr', _, hnm, _, _, hprov⟩ :=
                @processItem_save c st _ _ hcf hso
              rw [runItems_cons_ok hp]
              have hit : it.name ≠ r.name := by
                rcases hnames it (List.mem_cons_self it rest) with h | h
                · exact h
                · rw [hcf] at h; cases h
              have hsid : s.id ≠ r.id := by
                rcases hprov with ⟨r'', hf'', hid'', _, _⟩ | ⟨_, hid'', _, _⟩
                · intro h
                  have hr'' : r'' = r :=
                    huniq r'' (findRec_some hf'').1 (hid'' ▸ h)
                  have hn'' := (findRec_some hf'').2.2
                  exact hit (by rw [← hn'', hr''])
                · intro h
                  exact hfr st.fresh (Nat.le_refl _) (by rw [← h, hid''])
              have hmem' : r ∈ st'.db := by
                rw [hdb]
                exact saveRec_mem_of_ne hmem (fun h => hsid h.symm)
              have huniq' : ∀ x ∈ st'.db, x.id = r.id → x = r := by
                rw [hdb]
                intro x hx hxid
                rcases mem_saveRec hx with rfl | hx'
                · exact absurd hxid hsid
                · exact huniq x hx' hxid
              exact ih hmem' huniq' (fun k hk => hfr k (le_trans hfr' hk)) hrest
          | notUnique =>
              rw [runItems_cons_err (processItem_conflict hcf hso)]
              exact ⟨hmem, huniq⟩
          | validationError =>
              rw [runItems_cons_err (processItem_invalid hcf hso)]
              exact ⟨hmem, huniq⟩

end MistStorage

namespace MistStorage

theorem listStorageInner_ok {c : String} {now : Nat} {items : List Item}
    {db : DB} {fresh : Nat}
    (h : (runItems c ⟨db, fresh, [], []⟩ items).2 = none) :
    listStorageInner c now (.ok items) db fresh =
      ⟨clearMissingById c
          ((runItems c ⟨db, fresh, [], []⟩ items).1.storage.map (·.name))
          (markMissing c now
            ((runItems c ⟨db, fresh, [], []⟩ items).1.storage.map (·.name))
            (runItems c ⟨db, fresh, [], []⟩ items).1.db),
        (runItems c ⟨db, fresh, [], []⟩ items).1.fresh,
        (runItems c ⟨db, fresh, [], []⟩ items).1.storage,
        (runItems c ⟨db, fresh, [], []⟩ items).1.newStorage, none⟩ := by
  simp only [listStorageInner, h]

theorem listStorageInner_err {c : String} {now : Nat} {items : List Item}
    {db : DB} {fresh : Nat} {e : PassErr}
    (h : (runItems c ⟨db, fresh, [], []⟩ items).2 = some e) :
    listStorageInner c now (.ok items) db fresh =
      ⟨(runItems c ⟨db, fresh, [], []⟩ items).1.db,
        (runItems c ⟨db, fresh, [], []⟩ items).1.fresh,
        (runItems c ⟨db, fresh, [], []⟩ items).1.storage,
        (runItems c ⟨db, fresh, [], []⟩ items).1.newStorage, some e⟩ := by
  simp only [listStorageInner, h]

theorem listStorageInner_storage_eq {c : String} {now : Nat}
    {items : List Item} {db : DB} {fresh : Nat} :
    (listStorageInner c now (.ok items) db fresh).storage =
      (runItems c ⟨db, fresh, [], []⟩ items).1.storage := by
  cases h : (runItems c ⟨db, fresh, [], []⟩ items).2 with
  | none => rw [listStorageInner_ok h]
  | some e => rw [listStorageInner_err h]

theorem mem_missingMaps {c : String} {now : Nat} {ns : List String}
    {db : DB} {y : StoreRec}
    (h : y ∈ clearMissingById c ns (markMissing c now ns db)) :
    ∃ w ∈ db, y.id = w.id ∧ y.cloud = w.cloud ∧ y.name = w.name ∧
      y.extra = w.extra ∧ y.content = w.content := by
  simp only [clearMissingById, markMissing] at h
  rcases List.mem_map.1 h with ⟨z, hz, hze⟩
  rcases List.mem_map.1 hz with ⟨w, hw, hwe⟩
  refine ⟨w, hw, ?_⟩
  subst hze hwe
  split_ifs <;> simp

theorem missingMaps_mem_fields {c : String} {now : Nat} {ns : List String}
    {db : DB} {w : StoreRec} (hw : w ∈ db) :
    ∃ y ∈ clearMissingById c ns (markMissing c now ns db),
      y.id = w.id ∧ y.cloud = w.cloud ∧ y.name = w.name ∧
      y.extra = w.extra ∧ y.content = w.content := by
  simp only [clearMissingById, markMissing]
  refine ⟨_, List.mem_map_of_mem _ (List.mem_map_of_mem _ hw), ?_⟩
  split_ifs <;> simp

theorem missingMaps_marks {c : String} {now : Nat} {ns : List String}
    {db : DB} {w : StoreRec} (hw : w ∈ db) (hcl : w.cloud = c)
    (hnm : w.name ∉ ns) (hid : w.id ∉ ns) :
    ∃ y ∈ clearMissingById c ns (markMissing c now ns db),
      y.id = w.id ∧ y.name = w.name ∧ y.missing_since.isSome = true ∧
      (w.missing_since = none → y.missing_since = some now) ∧
      (w.missing_since ≠ none → y.missing_since = w.missing_since) := by
  simp only [clearMissingById, markMissing]
  cases hm : w.missing_since with
  | none =>
      refine ⟨{ w with missing_since := some now },
        List.mem_map.2 ⟨{ w with missing_since := some now },
          List.mem_map.2 ⟨w, hw, ?_⟩, ?_⟩,
        rfl, rfl, rfl, fun _ => rfl, fun h => absurd rfl h⟩
      · simp [hcl, hnm, hm]
      · simp [hid]
  | some m =>
      refine ⟨w, List.mem_map.2 ⟨w, List.mem_map.2 ⟨w, hw, ?_⟩, ?_⟩,
        rfl, rfl, by simp [hm], fun h => absurd h (by simp),
        fun _ => hm⟩
      · simp [hm]
      · simp [hid]

theorem missingMaps_keeps_present {c : String} {now : Nat} {ns : List String}
    {db : DB} {w : StoreRec} (hw : w ∈ db)
    (hnm : w.name ∈ ns) (hid : w.id ∉ ns) :
    w ∈ clearMissingById c ns (markMissing c now ns db) := by
  simp only [clearMissingById, markMissing]
  refine List.mem_map.2 ⟨w, List.mem_map.2 ⟨w, hw, ?_⟩, ?_⟩
  · simp [hnm]
  · simp [hid]

end MistStorage

namespace MistStorage

/-- Claim C7: after the coercion step, every value in the `extra` mapping
of every record appended to a pass's result is JSON-serializable, and a
non-serializable extra value is never an error: with the listing fetched,
only a save failure can abort the pass, whatever the extras are. -/
theorem c7_extra_coercion (c : String) (now : Nat) (items : List Item)
    (db : DB) (fresh : Nat) :
    (∀ s ∈ (listStorageInner c now (.ok items) db fresh).storage,
        ∀ kv ∈ s.extra, kv.2.serializable = true) ∧
    ((∀ it ∈ items, it.saveOutcome = .ok) →
      (listStorageInner c now (.ok items) db fresh).err = none) := by
  constructor
  · intro s hs kv hkv
    rw [listStorageInner_storage_eq] at hs
    obtain ⟨L, hL, hP⟩ :=
      @runItems_storage c items ⟨db, fresh, [], []⟩
    rw [hL] at hs
    simp only [List.nil_append] at hs
    obtain ⟨_, itx, _, _, hex, _⟩ := hP s hs
    rw [hex] at hkv
    exact coerceExtra_serializable kv hkv
  · intro hsaves
    rw [listStorageInner_ok (runItems_ok_of_saves hsaves)]

/-- Witness for C7: a pass whose single item carries a non-serializable
extra value; the persisted record's value is its string form, which is
serializable, and the pass does not error. -/
theorem c7_extra_coercion_witness :
    (ExtraVal.jsonOk "objrepr").serializable = true ∧
    (listStorageInner "c" 10
      (.ok [⟨"b", [("obj", .nonSerializable "objrepr")], .ok [], .ok⟩])
      [] 0).err = none := by
  constructor
  · exact (c7_extra_coercion "c" 10
      [⟨"b", [("obj", .nonSerializable "objrepr")], .ok [], .ok⟩] [] 0).1
      ⟨"oid", "c", "b", [("obj", .jsonOk "objrepr")], [], none⟩ (by decide)
      ("obj", .jsonOk "objrepr") (by decide)
  · exact (c7_extra_coercion "c" 10
      [⟨"b", [("obj", .nonSerializable "objrepr")], .ok [], .ok⟩] [] 0).2
      (by decide)

/-- Claim C8 (amended): `list_cached_storage` returns exactly the cloud's
records with `missing_since = null` — currently-missing records are
excluded from the cached listing, not included — while the reconcile
return value only contains records named in the provider response. -/
theorem c8_cached_nonmissing_only :
    (∀ (c : String) (db : DB) (r : StoreRec),
        r ∈ list_cached_storage c db ↔
          r ∈ db ∧ r.cloud = c ∧ r.missing_since = none) ∧
    (∀ (c : String) (now : Nat) (items : List Item) (db : DB) (fresh : Nat),
        ∀ s ∈ (listStorageInner c now (.ok items) db fresh).storage,
          s.name ∈ items.map Item.name) := by
  constructor
  · intro c db r
    simp [list_cached_storage, List.mem_filter, Option.isNone_iff_eq_none,
      and_assoc]
  · intro c now items db fresh s hs
    rw [listStorageInner_storage_eq] at hs
    obtain ⟨L, hL, hP⟩ :=
      @runItems_storage c items ⟨db, fresh, [], []⟩
    rw [hL] at hs
    simp only [List.nil_append] at hs
    obtain ⟨_, itx, hitx, hnm, _⟩ := hP s hs
    rw [hnm]
    exact List.mem_map_of_mem _ hitx

/-- Witness for C8 (amended): a non-missing record is in the cached
listing; a returned record's name comes from the response. -/
theorem c8_cached_nonmissing_only_witness :
    (⟨"oid0", "c", "b", [], [], none⟩ : StoreRec) ∈
      list_cached_storage "c" [⟨"oid0", "c", "b", [], [], none⟩] ∧
    (⟨"oid", "c", "b", [], [], none⟩ : StoreRec).name ∈
      ([⟨"b", [], .ok [], .ok⟩] : List Item).map Item.name := by
  constructor
  · exact (c8_cached_nonmissing_only.1 "c"
      [⟨"oid0", "c", "b", [], [], none⟩] ⟨"oid0", "c", "b", [], [], none⟩).2
      ⟨by decide, rfl, rfl⟩
  · exact c8_cached_nonmissing_only.2 "c" 10 [⟨"b", [], .ok [], .ok⟩] [] 0
      ⟨"oid", "c", "b", [], [], none⟩ (by decide)

/-- Claim C5 (amended): a uniqueness conflict while persisting one item
raises `ObjectStorageExistsError` and aborts the pass: the items after
it are neither processed nor persisted, the store keeps exactly the
writes made for the preceding items, and the missing-marking updates do
not run. -/
theorem c5_conflict_propagates (c : String) (now : Nat)
    (pre post : List Item) (x : Item) (co : Content)
    (db : DB) (fresh : Nat) (st1 : LoopSt)
    (hpre : runItems c ⟨db, fresh, [], []⟩ pre = (st1, none))
    (hc : x.contentFetch = .ok co) (hs : x.saveOutcome = .notUnique) :
    listStorageInner c now (.ok (pre ++ x :: post)) db fresh =
      ⟨st1.db, st1.fresh, st1.storage, st1.newStorage,
        some .objectStorageExists⟩ := by
  have hrun : runItems c ⟨db, fresh, [], []⟩ (pre ++ x :: post) =
      (st1, some .objectStorageExists) := by
    rw [runItems_append_ok hpre]
    exact runItems_cons_err (processItem_conflict hc hs)
  rw [listStorageInner_err (e := .objectStorageExists) (by rw [hrun]), hrun]

/-- Witness for C5 (amended): concrete two-item pass whose first item's
save conflicts; the pass aborts before touching the second item. -/
theorem c5_conflict_propagates_witness :
    listStorageInner "c" 10
      (.ok ([] ++ (⟨"a", [], .ok [], .notUnique⟩ : Item) ::
        [⟨"b", [], .ok [], .ok⟩])) [] 0 =
      ⟨[], 0, [], [], some .objectStorageExists⟩ :=
  c5_conflict_propagates "c" 10 [] [⟨"b", [], .ok [], .ok⟩]
    ⟨"a", [], .ok [], .notUnique⟩ [] [] 0 ⟨[], 0, [], []⟩ rfl rfl rfl

end MistStorage

namespace MistStorage

/-- Claim C10: a container that already has a store record and whose
content fetch raises `LibcloudError` this pass does not fail the pass;
it is excluded from the returned list, and the existing record ends the
pass with `missing_since` set (to now if it was null), exactly as if the
provider had stopped reporting it. -/
theorem c10_content_error_treated_missing
    (c : String) (now : Nat) (items : List Item) (db : DB) (fresh : Nat)
    (x : Item) (r : StoreRec)
    (hx : x ∈ items) (hxc : x.contentFetch = .error ())
    (hr : r ∈ db) (hrc : r.cloud = c) (hrn : r.name = x.name)
    (hsaves : ∀ it ∈ items, it.saveOutcome = .ok)
    (hnodupn : (items.map Item.name).Nodup)
    (hnodupi : (db.map StoreRec.id).Nodup)
    (hidf : IdsFresh db fresh)
    (hidnm : r.id ∉ items.map Item.name) :
    (listStorageInner c now (.ok items) db fresh).err = none ∧
    x.name ∉
      (listStorageInner c now (.ok items) db fresh).storage.map StoreRec.name ∧
    ∃ y ∈ (listStorageInner c now (.ok items) db fresh).db,
      y.id = r.id ∧ y.name = r.name ∧ y.missing_since.isSome = true ∧
      (r.missing_since = none → y.missing_since = some now) := by
  have herr : (runItems c ⟨db, fresh, [], []⟩ items).2 = none :=
    runItems_ok_of_saves hsaves
  have hinj := List.inj_on_of_nodup_map hnodupn
  obtain ⟨L, hL, hP⟩ :=
    @runItems_storage c items ⟨db, fresh, [], []⟩
  have hstorL : (runItems c ⟨db, fresh, [], []⟩ items).1.storage = L := by
    simpa using hL
  have hxnot : x.name ∉ L.map StoreRec.name := by
    intro hmem
    rcases List.mem_map.1 hmem with ⟨s, hsL, hsn⟩
    obtain ⟨_, itx, hitx, hnm, _, co, hcf, _⟩ := hP s hsL
    have hix : itx = x := hinj hitx hx (by rw [← hnm, hsn])
    rw [hix, hxc] at hcf
    cases hcf
  have hsub : ∀ nm ∈ L.map StoreRec.name, nm ∈ items.map Item.name := by
    intro nm hnm
    rcases List.mem_map.1 hnm with ⟨s, hsL, rfl⟩
    obtain ⟨_, itx, hitx, hnmx, _⟩ := hP s hsL
    rw [hnmx]
    exact List.mem_map_of_mem _ hitx
  have hpr := @runItems_preserve c r items ⟨db, fresh, [], []⟩ hr
      (fun y hy hid => List.inj_on_of_nodup_map hnodupi hy hr hid)
      (fun k hk => hidf r hr k hk)
      (fun it hit => by
        by_cases heq : it.name = r.name
        · have hix : it = x := hinj hit hx (by rw [heq, hrn])
          rw [hix]
          exact Or.inr hxc
        · exact Or.inl heq)
  obtain ⟨hrmem, _⟩ := hpr
  obtain ⟨y, hymem, hyid, hyname, hysome, hynone⟩ :=
    @missingMaps_marks c now
      ((runItems c ⟨db, fresh, [], []⟩ items).1.storage.map (·.name)) _ _
      hrmem hrc
      (by
        intro hmem
        have hmem' : r.name ∈ L.map StoreRec.name := by
          rw [← hstorL]
          exact hmem
        rw [hrn] at hmem'
        exact hxnot hmem')
      (by
        intro hmem
        have hmem' : r.id ∈ L.map StoreRec.name := by
          rw [← hstorL]
          exact hmem
        exact hidnm (hsub r.id hmem'))
  refine ⟨?_, ?_, ?_⟩
  · rw [listStorageInner_ok herr]
  · rw [listStorageInner_storage_eq, hstorL]
    exact hxnot
  · rw [listStorageInner_ok herr]
    exact ⟨y, hymem, hyid, hyname, hysome, hynone.1⟩

end MistStorage

namespace MistStorage

theorem freshId_data (k : Nat) :
    (freshId k).data = 'o' :: 'i' :: 'd' :: List.replicate k 'i' := rfl

theorem ne_freshId_of_head {s : String} (k : Nat)
    (h : s.data.head? ≠ some 'o') : s ≠ freshId k := by
  intro he
  apply h
  rw [he, freshId_data]
  rfl

/-- Witness for C10: a cloud with one stored record named `b`; the
provider still lists `b` but its content fetch raises; the pass succeeds
and `b` is absent from the returned list. -/
theorem c10_content_error_treated_missing_witness :
    (listStorageInner "c" 10 (.ok [⟨"b", [], .error (), .ok⟩])
        [⟨"xid0", "c", "b", [], [], none⟩] 0).err = none ∧
    "b" ∉ (listStorageInner "c" 10 (.ok [⟨"b", [], .error (), .ok⟩])
        [⟨"xid0", "c", "b", [], [], none⟩] 0).storage.map StoreRec.name := by
  have h := c10_content_error_treated_missing "c" 10
    [⟨"b", [], .error (), .ok⟩] [⟨"xid0", "c", "b", [], [], none⟩] 0
    ⟨"b", [], .error (), .ok⟩ ⟨"xid0", "c", "b", [], [], none⟩
    (List.mem_singleton.2 rfl) rfl (List.mem_singleton.2 rfl) rfl rfl
    (fun it hit => by rw [List.mem_singleton.1 hit])
    (by decide) (by decide)
    (fun r hr k _ => by
      rw [List.mem_singleton.1 hr]
      exact ne_freshId_of_head k (by decide))
    (by decide)
  exact ⟨h.1, h.2.1⟩

end MistStorage

namespace MistStorage

/-- Claim C4: the provider returns three containers and the content fetch
of exactly the second raises `LibcloudError`; the pass does not fail,
containers 1 and 3 are persisted with their content attached and are the
returned list, while container 2 (never seen before) is absent from the
returned list and from the store. -/
theorem c4_content_skip_isolation
    (c : String) (now : Nat) (db : DB) (fresh : Nat)
    (i1 i2 i3 : Item) (co1 co3 : Content)
    (h1c : i1.contentFetch = .ok co1) (h1s : i1.saveOutcome = .ok)
    (h2c : i2.contentFetch = .error ())
    (h3c : i3.contentFetch = .ok co3) (h3s : i3.saveOutcome = .ok)
    (hn12 : i1.name ≠ i2.name) (hn13 : i1.name ≠ i3.name)
    (hn23 : i2.name ≠ i3.name)
    (hdbP : ∀ r ∈ db, ¬(r.cloud = c ∧ r.name = i2.name))
    (hnodupi : (db.map StoreRec.id).Nodup)
    (hidf : IdsFresh db fresh) :
    (listStorageInner c now (.ok [i1, i2, i3]) db fresh).err = none ∧
    (listStorageInner c now (.ok [i1, i2, i3]) db fresh).storage.map
      StoreRec.name = [i1.name, i3.name] ∧
    (listStorageInner c now (.ok [i1, i2, i3]) db fresh).storage.map
      StoreRec.content = [co1, co3] ∧
    (∀ y ∈ (listStorageInner c now (.ok [i1, i2, i3]) db fresh).db,
      ¬(y.cloud = c ∧ y.name = i2.name)) ∧
    (∃ y ∈ (listStorageInner c now (.ok [i1, i2, i3]) db fresh).db,
      y.cloud = c ∧ y.name = i1.name ∧ y.content = co1) ∧
    (∃ y ∈ (listStorageInner c now (.ok [i1, i2, i3]) db fresh).db,
      y.cloud = c ∧ y.name = i3.name ∧ y.content = co3) := by
  obtain ⟨s1, st1, hp1, hdb1, hst1, hfr1, hcl1, hnm1, hco1, _, hprov1⟩ :=
    @processItem_save c ⟨db, fresh, [], []⟩ _ _ h1c h1s
  obtain ⟨st2, hp2, hdb2, hst2, hfr2⟩ := @processItem_skip c st1 _ h2c
  obtain ⟨s3, st3, hp3, hdb3, hst3, hfr3, hcl3, hnm3, hco3, _, hprov3⟩ :=
    @processItem_save c st2 _ _ h3c h3s
  have hrun : runItems c ⟨db, fresh, [], []⟩ [i1, i2, i3] = (st3, none) := by
    rw [runItems_cons_ok hp1, runItems_cons_ok hp2, runItems_cons_ok hp3]
    rfl
  have herr : (runItems c ⟨db, fresh, [], []⟩ [i1, i2, i3]).2 = none := by
    rw [hrun]
  have hstor : st3.storage = [s1, s3] := by
    rw [hst3, hst2, hst1]
    rfl
  have hdb : st3.db = saveRec s3 (saveRec s1 db) := by
    rw [hdb3, hdb2, hdb1]
  have hfr02 : fresh ≤ st2.fresh := le_trans hfr1 hfr2
  have hne13 : s1.id ≠ s3.id := by
    rcases hprov3 with ⟨r3, hf3, hid3, _, _⟩ | ⟨_, hid3, _, _⟩
    · have hr3mem : r3 ∈ st2.db := (findRec_some hf3).1
      have hr3n : r3.name = i3.name := (findRec_some hf3).2.2
      rw [hdb2, hdb1] at hr3mem
      rcases mem_saveRec hr3mem with rfl | hr3db
      · exact absurd (hnm1 ▸ hr3n) hn13
      · rcases hprov1 with ⟨r1, hf1, hid1, _, _⟩ | ⟨_, hid1, _, _⟩
        · intro he
          have hrr : r1 = r3 :=
            List.inj_on_of_nodup_map hnodupi (findRec_some hf1).1 hr3db
              (by rw [← hid1, he, hid3])
          have h1n := (findRec_some hf1).2.2
          exact hn13 (by rw [← h1n, hrr, hr3n])
        · intro he
          exact hidf r3 hr3db fresh (Nat.le_refl _) (by rw [← hid3, ← he, hid1])
    · rcases hprov1 with ⟨r1, hf1, hid1, _, _⟩ | ⟨_, hid1, _, hfr1'⟩
      · intro he
        exact hidf r1 (findRec_some hf1).1 st2.fresh hfr02
          (by rw [← hid1, he, hid3])
      · intro he
        have heq : fresh = st2.fresh := freshId_inj (by rw [← hid1, he, hid3])
        have h1 : fresh + 1 ≤ st2.fresh := by rw [← hfr1']; exact hfr2
        omega
  have hs1mem : s1 ∈ st3.db := by
    rw [hdb]
    exact saveRec_mem_of_ne (saveRec_mem_self s1 db) hne13
  have hs3mem : s3 ∈ st3.db := by
    rw [hdb]
    exact saveRec_mem_self s3 _
  have hnoi2 : ∀ y ∈ st3.db, ¬(y.cloud = c ∧ y.name = i2.name) := by
    rw [hdb]
    refine saveRec_forall (saveRec_forall hdbP ?_) ?_
    · intro hcn
      exact hn12 (by rw [← hnm1, hcn.2])
    · intro hcn
      exact hn23 (by rw [← hcn.2, hnm3])
  refine ⟨?_, ?_, ?_, ?_, ?_, ?_⟩
  · rw [listStorageInner_ok herr]
  · rw [listStorageInner_storage_eq, hrun]
    simp [hstor, hnm1, hnm3]
  · rw [listStorageInner_storage_eq, hrun]
    simp [hstor, hco1, hco3]
  · rw [listStorageInner_ok herr]
    intro y hy
    obtain ⟨w, hw, _, hcld, hnmy, _, _⟩ := mem_missingMaps hy
    rw [hrun] at hw
    intro hcn
    exact hnoi2 w hw ⟨by rw [← hcld, hcn.1], by rw [← hnmy, hcn.2]⟩
  · rw [listStorageInner_ok herr]
    have hs1mem' : s1 ∈ (runItems c ⟨db, fresh, [], []⟩ [i1, i2, i3]).1.db := by
      rw [hrun]
      exact hs1mem
    obtain ⟨y, hy, _, hcld, hnmy, _, hcont⟩ :=
      @missingMaps_mem_fields c now
        ((runItems c ⟨db, fresh, [], []⟩ [i1, i2, i3]).1.storage.map
          (·.name)) _ _ hs1mem'
    exact ⟨y, hy, by rw [hcld, hcl1], by rw [hnmy, hnm1], by rw [hcont, hco1]⟩
  · rw [listStorageInner_ok herr]
    have hs3mem' : s3 ∈ (runItems c ⟨db, fresh, [], []⟩ [i1, i2, i3]).1.db := by
      rw [hrun]
      exact hs3mem
    obtain ⟨y, hy, _, hcld, hnmy, _, hcont⟩ :=
      @missingMaps_mem_fields c now
        ((runItems c ⟨db, fresh, [], []⟩ [i1, i2, i3]).1.storage.map
          (·.name)) _ _ hs3mem'
    exact ⟨y, hy, by rw [hcld, hcl3], by rw [hnmy, hnm3], by rw [hcont, hco3]⟩

/-- Witness for C4: concrete three-container pass over an empty store;
content fetch of the second container raises; the returned names are
exactly the first and third containers'. -/
theorem c4_content_skip_isolation_witness :
    (listStorageInner "c" 10
      (.ok [⟨"a", [], .ok ["x"], .ok⟩, ⟨"b", [], .error (), .ok⟩,
            ⟨"d", [], .ok ["y"], .ok⟩]) [] 0).err = none ∧
    (listStorageInner "c" 10
      (.ok [⟨"a", [], .ok ["x"], .ok⟩, ⟨"b", [], .error (), .ok⟩,
            ⟨"d", [], .ok ["y"], .ok⟩]) [] 0).storage.map StoreRec.name =
      ["a", "d"] := by
  have h := c4_content_skip_isolation "c" 10 [] 0
    ⟨"a", [], .ok ["x"], .ok⟩ ⟨"b", [], .error (), .ok⟩
    ⟨"d", [], .ok ["y"], .ok⟩ ["x"] ["y"]
    rfl rfl rfl rfl rfl (by decide) (by decide) (by decide)
    (fun r hr => absurd hr (List.not_mem_nil r))
    (by decide)
    (fun r hr => absurd hr (List.not_mem_nil r))
  exact ⟨h.1, h.2.1⟩

end MistStorage

namespace MistStorage

theorem map_id_on {α : Type} {f : α → α} :
    ∀ {l : List α}, (∀ x ∈ l, f x = x) → l.map f = l := by
  intro l
  induction l with
  | nil => intro _; rfl
  | cons x xs ih =>
      intro h
      rw [List.map_cons, h x (List.mem_cons_self x xs),
        ih (fun y hy => h y (List.mem_cons_of_mem _ hy))]

theorem find?_congr' {α : Type} {p q : α → Bool} :
    ∀ {l : List α}, (∀ x ∈ l, p x = q x) → l.find? p = l.find? q := by
  intro l
  induction l with
  | nil => intro _; rfl
  | cons x xs ih =>
      intro h
      rcases hq : q x with _ | _
      · rw [List.find?_cons_of_neg, List.find?_cons_of_neg]
        · exact ih (fun y hy => h y (List.mem_cons_of_mem _ hy))
        · simp [hq]
        · simp [h x (List.mem_cons_self x xs), hq]
      · rw [List.find?_cons_of_pos, List.find?_cons_of_pos]
        · simp [hq]
        · rw [h x (List.mem_cons_self x xs)]
          exact hq

theorem findRec_map_pres {c n : String} {f : StoreRec → StoreRec} {db : DB}
    (hf : ∀ r, (f r).cloud = r.cloud ∧ (f r).name = r.name) :
    findRec c n (db.map f) = (findRec c n db).map f := by
  unfold findRec
  rw [List.find?_map]
  have : List.find? ((fun r => r.cloud = c && r.name = n) ∘ f) db =
      List.find? (fun r => r.cloud = c && r.name = n) db := by
    apply find?_congr'
    intro x _
    simp only [Function.comp_apply, (hf x).1, (hf x).2]
  rw [this]

theorem markMissing_pres (c : String) (now : Nat) (ns : List String)
    (r : StoreRec) :
    ((if r.cloud == c && !(ns.contains r.name) && r.missing_since.isNone
      then { r with missing_since := some now } else r) : StoreRec).cloud
        = r.cloud ∧
    ((if r.cloud == c && !(ns.contains r.name) && r.missing_since.isNone
      then { r with missing_since := some now } else r) : StoreRec).name
        = r.name ∧
    ((if r.cloud == c && !(ns.contains r.name) && r.missing_since.isNone
      then { r with missing_since := some now } else r) : StoreRec).id
        = r.id := by
  split_ifs <;> exact ⟨rfl, rfl, rfl⟩

theorem clearMissing_pres (c : String) (ns : List String) (r : StoreRec) :
    ((if r.cloud == c && ns.contains r.id
      then { r with missing_since := none } else r) : StoreRec).cloud
        = r.cloud ∧
    ((if r.cloud == c && ns.contains r.id
      then { r with missing_since := none } else r) : StoreRec).name
        = r.name ∧
    ((if r.cloud == c && ns.contains r.id
      then { r with missing_since := none } else r) : StoreRec).id
        = r.id := by
  split_ifs <;> exact ⟨rfl, rfl, rfl⟩

theorem saveRec_self_eq {s : StoreRec} {db : DB} (h : s ∈ db)
    (huniq : ∀ x ∈ db, x.id = s.id → x = s) : saveRec s db = db := by
  unfold saveRec
  rw [if_pos (List.any_eq_true.2 ⟨s, h, by simp⟩)]
  apply map_id_on
  intro x hx
  by_cases hid : x.id = s.id
  · rw [if_pos hid, huniq x hx hid]
  · rw [if_neg hid]

theorem saveRec_ids_nodup {s : StoreRec} {db : DB}
    (h : (db.map StoreRec.id).Nodup) :
    ((saveRec s db).map StoreRec.id).Nodup := by
  unfold saveRec
  split
  · next hany =>
      have : (db.map (fun r => if r.id = s.id then s else r)).map StoreRec.id
          = db.map StoreRec.id := by
        rw [List.map_map]
        apply List.map_congr_left
        intro x _
        by_cases hid : x.id = s.id
        · simp [Function.comp_apply, hid]
        · simp [Function.comp_apply, hid]
      rw [this]
      exact h
  · next hany =>
      have hnot : s.id ∉ db.map StoreRec.id := by
        intro hmem
        rcases List.mem_map.1 hmem with ⟨x, hx, hxe⟩
        exact hany (List.any_eq_true.2 ⟨x, hx, by simp [hxe]⟩)
      rw [List.map_append]
      simp only [List.map_cons, List.map_nil]
      rw [List.nodup_append]
      exact ⟨h, List.nodup_singleton _, by simp [List.disjoint_singleton, hnot]⟩

end MistStorage

namespace MistStorage

theorem append_dash_inj : ∀ {l1 l2 r1 r2 : List Char},
    '-' ∉ l1 → '-' ∉ l2 → l1 ++ '-' :: r1 = l2 ++ '-' :: r2 →
    l1 = l2 ∧ r1 = r2 := by
  intro l1
  induction l1 with
  | nil =>
      intro l2 r1 r2 _ h2 he
      cases l2 with
      | nil => simpa using he
      | cons y ys =>
          simp only [List.nil_append, List.cons_append, List.cons.injEq] at he
          exact absurd (by rw [he.1]; exact List.mem_cons_self y ys) h2
  | cons x xs ih =>
      intro l2 r1 r2 h1 h2 he
      cases l2 with
      | nil =>
          simp only [List.cons_append, List.nil_append, List.cons.injEq] at he
          exact absurd (by rw [← he.1]; exact List.mem_cons_self x xs) h1
      | cons y ys =>
          simp only [List.cons_append, List.cons.injEq] at he
          have hx : '-' ∉ xs := fun hm => h1 (List.mem_cons_of_mem _ hm)
          have hy : '-' ∉ ys := fun hm => h2 (List.mem_cons_of_mem _ hm)
          obtain ⟨ha, hb⟩ := ih hx hy he.2
          exact ⟨by rw [he.1, ha], hb⟩

theorem snapKey_inj {r r' : StoreRec} (h : Dashless r.id) (h' : Dashless r'.id)
    (he : snapKey r = snapKey r') : r.id = r'.id ∧ r.name = r'.name := by
  have hd := congrArg String.data he
  simp only [snapKey, String.data_append, List.append_assoc,
    List.singleton_append] at hd
  obtain ⟨h1, h2⟩ := append_dash_inj h h' hd
  exact ⟨String.ext h1, String.ext h2⟩

theorem slookup_of_mem_nodup : ∀ {a : Snapshot},
    (a.map Prod.fst).Nodup → ∀ {p : String × StoreRec}, p ∈ a →
    slookup p.1 a = some p.2 := by
  intro a
  induction a with
  | nil => intro _ p hp; cases hp
  | cons q rest ih =>
      intro hnd p hp
      rcases List.mem_cons.1 hp with rfl | hp'
      · unfold slookup
        rw [if_pos rfl]
      · have hne : q.1 ≠ p.1 := by
          intro he
          have hq : p.1 ∈ rest.map Prod.fst :=
            List.mem_map_of_mem _ hp'
          rw [List.map_cons] at hnd
          rw [he] at hnd
          exact (List.nodup_cons.1 hnd).1 hq
        unfold slookup
        rw [if_neg hne]
        exact ih (List.nodup_cons.1 (by rw [List.map_cons] at hnd; exact hnd)).2 hp'

theorem slookup_mem : ∀ {a : Snapshot} {k : String} {v : StoreRec},
    slookup k a = some v → (k, v) ∈ a := by
  intro a
  induction a with
  | nil => intro k v h; cases h
  | cons q rest ih =>
      intro k v h
      unfold slookup at h
      split_ifs at h with hq
      · cases h
        rw [← hq]
        exact List.mem_cons_self q rest
      · exact List.mem_cons_of_mem _ (ih h)

theorem snapDiff_nil {before after : Snapshot}
    (hmem : ∀ p, p ∈ before ↔ p ∈ after)
    (hb : (before.map Prod.fst).Nodup) (ha : (after.map Prod.fst).Nodup) :
    snapDiff before after = [] := by
  unfold snapDiff
  rw [List.append_eq_nil]
  constructor
  · rw [List.filterMap_eq_nil]
    intro kv hkv
    have hkb : kv ∈ before := (hmem kv).2 hkv
    rw [slookup_of_mem_nodup hb hkb]
    simp
  · rw [List.filterMap_eq_nil]
    intro kv hkv
    have hka : kv ∈ after := (hmem kv).1 hkv
    rw [slookup_of_mem_nodup ha hka]

theorem forall₂_map_eq {α β γ : Type} {R : α → β → Prop} {f : α → γ}
    {g : β → γ} (hR : ∀ a b, R a b → g b = f a) :
    ∀ {l1 : List α} {l2 : List β}, List.Forall₂ R l1 l2 →
      l2.map g = l1.map f := by
  intro l1 l2 h
  induction h with
  | nil => rfl
  | cons hab _ ih => simp [ih, hR _ _ hab]

theorem forall₂_mem_right {α β : Type} {R : α → β → Prop} :
    ∀ {l1 : List α} {l2 : List β}, List.Forall₂ R l1 l2 →
      ∀ b ∈ l2, ∃ a ∈ l1, R a b := by
  intro l1 l2 h
  induction h with
  | nil => intro b hb; cases hb
  | cons hab htl ih =>
      intro b hb
      rcases List.mem_cons.1 hb with rfl | hb'
      · exact ⟨_, List.mem_cons_self _ _, hab⟩
      · obtain ⟨a, ha, hr⟩ := ih b hb'
        exact ⟨a, List.mem_cons_of_mem _ ha, hr⟩

theorem forall₂_mem_left {α β : Type} {R : α → β → Prop} :
    ∀ {l1 : List α} {l2 : List β}, List.Forall₂ R l1 l2 →
      ∀ a ∈ l1, ∃ b ∈ l2, R a b := by
  intro l1 l2 h
  induction h with
  | nil => intro a ha; cases ha
  | cons hab htl ih =>
      intro a ha
      rcases List.mem_cons.1 ha with rfl | ha'
      · exact ⟨_, List.mem_cons_self _ _, hab⟩
      · obtain ⟨b, hb, hr⟩ := ih a ha'
        exact ⟨b, List.mem_cons_of_mem _ hb, hr⟩

end MistStorage

namespace MistStorage

theorem runItems_synced {c : String} :
    ∀ {items : List Item} {L : List StoreRec} {st : LoopSt},
      (∀ it ∈ items, it.saveOutcome = .ok) →
      List.Forall₂ (fun it s =>
        findRec c it.name st.db = some s ∧
        s.extra = coerceExtra it.extra ∧
        (∃ co, it.contentFetch = .ok co ∧ s.content = co)) items L →
      (∀ x ∈ st.db, ∀ y ∈ st.db, x.id = y.id → x = y) →
      runItems c st items =
        (⟨st.db, st.fresh, st.storage ++ L, st.newStorage⟩, none) := by
  intro items
  induction items with
  | nil =>
      intro L st _ hf _
      cases hf
      simp [runItems]
  | cons it rest ih =>
      intro L st hsv hf huniq
      cases hf with
      | cons hhead htail =>
          obtain ⟨hfind, hex, co, hcf, hco⟩ := hhead
          next s L' =>
          have hso := hsv it (List.mem_cons_self it rest)
          have hsmem : s ∈ st.db := (findRec_some hfind).1
          have huniq' : ∀ x ∈ st.db, x.id = s.id → x = s :=
            fun x hx he => huniq x hx s hsmem he
          have hp := processItem_save_found hfind hcf hso
          have hs_eq :
              ({ s with extra := coerceExtra it.extra, content := co }
                : StoreRec) = s := by
            rw [← hex, ← hco]
          rw [hs_eq, saveRec_self_eq hsmem huniq'] at hp
          rw [runItems_cons_ok hp]
          have hres := @ih L'
            ⟨st.db, st.fresh, st.storage ++ [s], st.newStorage⟩
            (fun x hx => hsv x (List.mem_cons_of_mem _ hx)) htail huniq
          rw [hres]
          simp

theorem findRec_none {c n : String} {db : DB} (h : findRec c n db = none) :
    ∀ r ∈ db, ¬(r.cloud = c ∧ r.name = n) := by
  intro r hr hc
  have hp := List.find?_eq_none.1 h r hr
  simp only [Bool.and_eq_true, decide_eq_true_eq] at hp
  exact hp ⟨hc.1, hc.2⟩

theorem not_mem_saveRec_replaced {s r : StoreRec} {db : DB}
    (hr : r ∈ db) (hid : r.id = s.id) (hne : r ≠ s) :
    r ∉ saveRec s db := by
  intro hmem
  unfold saveRec at hmem
  rw [if_pos (List.any_eq_true.2 ⟨r, hr, by simp [hid]⟩)] at hmem
  rcases List.mem_map.1 hmem with ⟨x, hx, hxe⟩
  by_cases hxid : x.id = s.id
  · rw [if_pos hxid] at hxe
    exact hne hxe.symm
  · rw [if_neg hxid] at hxe
    rw [hxe] at hxid
    exact hxid hid

theorem runItems_pass {c : String} {ns : List String} :
    ∀ {items : List Item} {st : LoopSt},
      (∀ it ∈ items, it.saveOutcome = .ok) →
      (∀ it ∈ items, ∃ co, it.contentFetch = .ok co) →
      (items.map Item.name).Nodup →
      (∀ n ∈ items.map Item.name, n ∈ ns) →
      UniqueNames c st.db →
      ((st.db.map StoreRec.id).Nodup) →
      IdsFresh st.db st.fresh →
      (∀ r ∈ st.db, r.cloud = c → r.missing_since ≠ none →
        r.name ∉ items.map Item.name) →
      (∀ r ∈ st.db, r.id ∉ ns) →
      (∀ k, freshId k ∉ ns) →
      (∀ r ∈ st.db, Dashless r.id) →
      ∃ db' fresh' L N,
        runItems c st items = (⟨db', fresh', st.storage ++ L, N⟩, none) ∧
        List.Forall₂ (fun it s =>
          findRec c it.name db' = some s ∧
          s.extra = coerceExtra it.extra ∧
          (∃ co, it.contentFetch = .ok co ∧ s.content = co) ∧
          s.missing_since = none) items L ∧
        UniqueNames c db' ∧
        (db'.map StoreRec.id).Nodup ∧
        (∀ r ∈ db', r.id ∉ ns) ∧
        (∀ r ∈ db', Dashless r.id) ∧
        (∀ r ∈ db', r ∈ st.db ∨ r ∈ L) := by
  intro items
  induction items with
  | nil =>
      intro st _ _ _ _ hun hni _ _ hidnm _ hdash
      exact ⟨st.db, st.fresh, [], st.newStorage, by simp [runItems],
        List.Forall₂.nil, hun, hni, hidnm, hdash, fun r hr => Or.inl hr⟩
  | cons it rest ih =>
      intro st hsv hcf hnn hsub hun hni hif hmiss hidnm hfnm hdash
      rw [List.map_cons, List.nodup_cons] at hnn
      obtain ⟨co, hcfh⟩ := hcf it (List.mem_cons_self it rest)
      have hso := hsv it (List.mem_cons_self it rest)
      have hsubh : it.name ∈ ns :=
        hsub it.name (by rw [List.map_cons]; exact List.mem_cons_self _ _)
      cases hfind : findRec c it.name st.db with
      | some r =>
          obtain ⟨hrmem, hrc, hrn⟩ := findRec_some hfind
          have hrmiss : r.missing_since = none := by
            by_contra hne
            exact hmiss r hrmem hrc hne
              (by rw [hrn, List.map_cons]; exact List.mem_cons_self _ _)
          have hp := processItem_save_found hfind hcfh hso
          set s : StoreRec :=
            { r with extra := coerceExtra it.extra, content := co } with hS
          have hsid : s.id = r.id := by rw [hS]
          have hscloud : s.cloud = c := by rw [hS]; exact hrc
          have hsname : s.name = it.name := by rw [hS]; exact hrn
          have hsmiss : s.missing_since = none := by rw [hS]; exact hrmiss
          have hsextra : s.extra = coerceExtra it.extra := by rw [hS]
          have hscont : s.content = co := by rw [hS]
          have hsdash : Dashless s.id := by rw [hsid]; exact hdash r hrmem
          have hsns : s.id ∉ ns := by rw [hsid]; exact hidnm r hrmem
          have hsfr : ∀ k, st.fresh ≤ k → s.id ≠ freshId k := by
            intro k hk
            rw [hsid]
            exact hif r hrmem k hk
          have hun' : UniqueNames c (saveRec s st.db) := by
            intro x hx y hy hxc hyc hxy
            rcases mem_saveRec hx with rfl | hx'
            · rcases mem_saveRec hy with rfl | hy'
              · rfl
              · have hyr : y = r := hun y hy' r hrmem hyc hrc
                  (by rw [hrn, ← hsname]; exact hxy.symm)
                by_cases hrs : r = s
                · rw [hyr, hrs]
                · exact absurd (hyr ▸ hy)
                    (not_mem_saveRec_replaced hrmem hsid.symm hrs)
            · rcases mem_saveRec hy with rfl | hy'
              · have hxr : x = r := hun x hx' r hrmem hxc hrc
                  (by rw [hrn, ← hsname]; exact hxy)
                by_cases hrs : r = s
                · rw [hxr, hrs]
                · exact absurd (hxr ▸ hx)
                    (not_mem_saveRec_replaced hrmem hsid.symm hrs)
              · exact hun x hx' y hy' hxc hyc hxy
          have hni' : ((saveRec s st.db).map StoreRec.id).Nodup :=
            saveRec_ids_nodup hni
          have hif' : IdsFresh (saveRec s st.db) st.fresh := by
            intro x hx k hk
            rcases mem_saveRec hx with rfl | hx'
            · exact hsfr k hk
            · exact hif x hx' k hk
          have hmiss' : ∀ x ∈ saveRec s st.db, x.cloud = c →
              x.missing_since ≠ none → x.name ∉ rest.map Item.name := by
            intro x hx hxc hxm
            rcases mem_saveRec hx with rfl | hx'
            · exact absurd hsmiss hxm
            · intro hmem
              exact hmiss x hx' hxc hxm
                (by rw [List.map_cons]; exact List.mem_cons_of_mem _ hmem)
          have hidnm' : ∀ x ∈ saveRec s st.db, x.id ∉ ns :=
            saveRec_forall hidnm hsns
          have hdash' : ∀ x ∈ saveRec s st.db, Dashless x.id :=
            saveRec_forall hdash hsdash
          obtain ⟨db', fresh', L', N', hrun', hfa', hun'', hni'', hidnm'',
              hdash'', hold''⟩ :=
            @ih ⟨saveRec s st.db, st.fresh, st.storage ++ [s],
                st.newStorage⟩
              (fun x hx => hsv x (List.mem_cons_of_mem _ hx))
              (fun x hx => hcf x (List.mem_cons_of_mem _ hx))
              hnn.2
              (fun n hn => hsub n
                (by rw [List.map_cons]; exact List.mem_cons_of_mem _ hn))
              hun' hni' hif' hmiss' hidnm' hfnm hdash'
          have hpres := @runItems_preserve c s rest
            ⟨saveRec s st.db, st.fresh, st.storage ++ [s],
              st.newStorage⟩
            (saveRec_mem_self s st.db)
            (fun x hx hxid =>
              List.inj_on_of_nodup_map hni' hx (saveRec_mem_self s st.db) hxid)
            hsfr
            (fun it' hit' => Or.inl (by
              rw [hsname]
              intro he
              exact hnn.1 (by rw [← he]; exact List.mem_map_of_mem _ hit')))
          have hsfinal : s ∈ db' := by
            have h1 := hpres.1
            rw [hrun'] at h1
            exact h1
          have hfindfinal : findRec c it.name db' = some s :=
            findRec_unique hsfinal hscloud hsname
              (fun r' hr' hc' hn' => hun'' r' hr' s hsfinal hc' hscloud
                (by rw [hn', hsname]))
          refine ⟨db', fresh', s :: L', N', ?_, ?_, hun'', hni'', hidnm'',
            hdash'', ?_⟩
          · rw [runItems_cons_ok hp, hrun']
            simp
          · exact List.Forall₂.cons
              ⟨hfindfinal, hsextra, ⟨co, hcfh, hscont⟩, hsmiss⟩ hfa'
          · intro x hx
            rcases hold'' x hx with hx' | hx'
            · rcases mem_saveRec hx' with rfl | hx''
              · exact Or.inr (List.mem_cons_self _ _)
              · exact Or.inl hx''
            · exact Or.inr (List.mem_cons_of_mem _ hx')
      | none =>
          have hp := processItem_save_new hfind hcfh hso
          set s : StoreRec :=
            { id := freshId st.fresh, cloud := c, name := it.name,
              extra := coerceExtra it.extra, content := co,
              missing_since := none } with hS
          have hsid : s.id = freshId st.fresh := by rw [hS]
          have hscloud : s.cloud = c := by rw [hS]
          have hsname : s.name = it.name := by rw [hS]
          have hsmiss : s.missing_since = none := by rw [hS]
          have hsextra : s.extra = coerceExtra it.extra := by rw [hS]
          have hscont : s.content = co := by rw [hS]
          have hsdash : Dashless s.id := by
            rw [hsid]
            exact dashless_freshId _
          have hsns : s.id ∉ ns := by rw [hsid]; exact hfnm st.fresh
          have hsfr : ∀ k, st.fresh + 1 ≤ k → s.id ≠ freshId k := by
            intro k hk he
            rw [hsid] at he
            have := freshId_inj he
            omega
          have hun' : UniqueNames c (saveRec s st.db) := by
            intro x hx y hy hxc hyc hxy
            rcases mem_saveRec hx with rfl | hx'
            · rcases mem_saveRec hy with rfl | hy'
              · rfl
              · exact absurd ⟨hyc, by rw [← hxy, hsname]⟩
                  (findRec_none hfind y hy')
            · rcases mem_saveRec hy with rfl | hy'
              · exact absurd ⟨hxc, by rw [hxy, hsname]⟩
                  (findRec_none hfind x hx')
              · exact hun x hx' y hy' hxc hyc hxy
          have hni' : ((saveRec s st.db).map StoreRec.id).Nodup :=
            saveRec_ids_nodup hni
          have hif' : IdsFresh (saveRec s st.db) (st.fresh + 1) := by
            intro x hx k hk
            rcases mem_saveRec hx with rfl | hx'
            · exact hsfr k hk
            · exact hif x hx' k (by omega)
          have hmiss' : ∀ x ∈ saveRec s st.db, x.cloud = c →
              x.missing_since ≠ none → x.name ∉ rest.map Item.name := by
            intro x hx hxc hxm
            rcases mem_saveRec hx with rfl | hx'
            · exact absurd hsmiss hxm
            · intro hmem
              exact hmiss x hx' hxc hxm
                (by rw [List.map_cons]; exact List.mem_cons_of_mem _ hmem)
          have hidnm' : ∀ x ∈ saveRec s st.db, x.id ∉ ns :=
            saveRec_forall hidnm hsns
          have hdash' : ∀ x ∈ saveRec s st.db, Dashless x.id :=
            saveRec_forall hdash hsdash
          obtain ⟨db', fresh', L', N', hrun', hfa', hun'', hni'', hidnm'',
              hdash'', hold''⟩ :=
            @ih ⟨saveRec s st.db, st.fresh + 1, st.storage ++ [s],
                st.newStorage ++ [⟨freshId st.fresh, c, it.name, [], [], none⟩]⟩
              (fun x hx => hsv x (List.mem_cons_of_mem _ hx))
              (fun x hx => hcf x (List.mem_cons_of_mem _ hx))
              hnn.2
              (fun n hn => hsub n
                (by rw [List.map_cons]; exact List.mem_cons_of_mem _ hn))
              hun' hni' hif' hmiss' hidnm' hfnm hdash'
          have hpres := @runItems_preserve c s rest
            ⟨saveRec s st.db, st.fresh + 1, st.storage ++ [s],
              st.newStorage ++ [⟨freshId st.fresh, c, it.name, [], [], none⟩]⟩
            (saveRec_mem_self s st.db)
            (fun x hx hxid =>
              List.inj_on_of_nodup_map hni' hx (saveRec_mem_self s st.db) hxid)
            hsfr
            (fun it' hit' => Or.inl (by
              rw [hsname]
              intro he
              exact hnn.1 (by rw [← he]; exact List.mem_map_of_mem _ hit')))
          have hsfinal : s ∈ db' := by
            have h1 := hpres.1
            rw [hrun'] at h1
            exact h1
          have hfindfinal : findRec c it.name db' = some s :=
            findRec_unique hsfinal hscloud hsname
              (fun r' hr' hc' hn' => hun'' r' hr' s hsfinal hc' hscloud
                (by rw [hn', hsname]))
          refine ⟨db', fresh', s :: L', N', ?_, ?_, hun'', hni'', hidnm'',
            hdash'', ?_⟩
          · rw [runItems_cons_ok hp, hrun']
            simp
          · exact List.Forall₂.cons
              ⟨hfindfinal, hsextra, ⟨co, hcfh, hscont⟩, hsmiss⟩ hfa'
          · intro x hx
            rcases hold'' x hx with hx' | hx'
            · rcases mem_saveRec hx' with rfl | hx''
              · exact Or.inr (List.mem_cons_self _ _)
              · exact Or.inl hx''
            · exact Or.inr (List.mem_cons_of_mem _ hx')

theorem forall₂_imp_mem {α β : Type} {R S : α → β → Prop} :
    ∀ {l1 : List α} {l2 : List β}, List.Forall₂ R l1 l2 →
      (∀ a b, a ∈ l1 → b ∈ l2 → R a b → S a b) → List.Forall₂ S l1 l2 := by
  intro l1 l2 h
  induction h with
  | nil => intro _; exact List.Forall₂.nil
  | cons hab htl ih =>
      intro himp
      exact List.Forall₂.cons
        (himp _ _ (List.mem_cons_self _ _) (List.mem_cons_self _ _) hab)
        (ih (fun a b ha hb hr => himp a b (List.mem_cons_of_mem _ ha)
          (List.mem_cons_of_mem _ hb) hr))

theorem listStorageInner_pass {c : String} {ns : List String} {now : Nat}
    {items : List Item} {db : DB} {fresh : Nat}
    (hsv : ∀ it ∈ items, it.saveOutcome = .ok)
    (hcf : ∀ it ∈ items, ∃ co, it.contentFetch = .ok co)
    (hnn : (items.map Item.name).Nodup)
    (hsub : ∀ n ∈ items.map Item.name, n ∈ ns)
    (hun : UniqueNames c db)
    (hni : (db.map StoreRec.id).Nodup)
    (hif : IdsFresh db fresh)
    (hmiss : ∀ r ∈ db, r.cloud = c → r.missing_since ≠ none →
      r.name ∉ items.map Item.name)
    (hidnm : ∀ r ∈ db, r.id ∉ ns)
    (hfnm : ∀ k, freshId k ∉ ns)
    (hdash : ∀ r ∈ db, Dashless r.id) :
    ∃ db₁ L,
      (listStorageInner c now (.ok items) db fresh).err = none ∧
      (listStorageInner c now (.ok items) db fresh).db = db₁ ∧
      (listStorageInner c now (.ok items) db fresh).storage = L ∧
      List.Forall₂ (fun it s =>
        findRec c it.name db₁ = some s ∧ s.extra = coerceExtra it.extra ∧
        (∃ co, it.contentFetch = .ok co ∧ s.content = co) ∧
        s.missing_since = none) items L ∧
      UniqueNames c db₁ ∧
      (db₁.map StoreRec.id).Nodup ∧
      (∀ r ∈ db₁, r.id ∉ ns) ∧
      (∀ r ∈ db₁, Dashless r.id) ∧
      (∀ r ∈ db₁, r.cloud = c → r.missing_since = none → r ∈ L) ∧
      (∀ s ∈ L, s ∈ db₁) := by
  obtain ⟨db', fresh', L, N, hrun, hfa, hun', hni', hidnm', hdash', hold⟩ :=
    @runItems_pass c ns items ⟨db, fresh, [], []⟩
      hsv hcf hnn hsub hun hni hif hmiss hidnm hfnm hdash
  have herr : (runItems c ⟨db, fresh, [], []⟩ items).2 = none := by rw [hrun]
  have hinner := @listStorageInner_ok c now _ _ _ herr
  have hstor : (listStorageInner c now (.ok items) db fresh).storage = L := by
    rw [hinner, hrun]
    simp
  have hdbeq : (listStorageInner c now (.ok items) db fresh).db =
      clearMissingById c (L.map (·.name))
        (markMissing c now (L.map (·.name)) db') := by
    rw [hinner, hrun]
    simp
  set nsL : List String := L.map (·.name) with hnsL
  set db₁ : DB :=
    clearMissingById c nsL (markMissing c now nsL db') with hdb₁
  -- every element of L is named by an item and lies in db'
  have hLmem : ∀ s ∈ L, s ∈ db' ∧ s.cloud = c ∧ s.name ∈ nsL ∧
      s.id ∉ nsL ∧ Dashless s.id := by
    intro s hs
    obtain ⟨a, ha, hr⟩ := forall₂_mem_right hfa s hs
    obtain ⟨hmem, hcl, _⟩ := findRec_some hr.1
    refine ⟨hmem, hcl, List.mem_map_of_mem _ hs, ?_, hdash' s hmem⟩
    intro hmemid
    rcases List.mem_map.1 hmemid with ⟨s', hs', hs'e⟩
    obtain ⟨a', ha', hr'⟩ := forall₂_mem_right hfa s' hs'
    have hn' : s'.name = a'.name := (findRec_some hr'.1).2.2
    have : s.id ∈ ns := by
      apply hsub
      rw [← hs'e, hn']
      exact List.mem_map_of_mem _ ha'
    exact hidnm' s hmem this
  have hLdb₁ : ∀ s ∈ L, s ∈ db₁ := by
    intro s hs
    obtain ⟨hmem, _, hnm, hid, _⟩ := hLmem s hs
    exact missingMaps_keeps_present hmem hnm hid
  have hids₁ : db₁.map StoreRec.id = db'.map StoreRec.id := by
    rw [hdb₁]
    simp only [clearMissingById, markMissing, List.map_map]
    apply List.map_congr_left
    intro r _
    simp only [Function.comp_apply]
    rw [(clearMissing_pres c nsL _).2.2, (markMissing_pres c now nsL r).2.2]
  have hni₁ : (db₁.map StoreRec.id).Nodup := by rw [hids₁]; exact hni'
  have hmm₁ : ∀ x ∈ db₁, ∃ w ∈ db', x.id = w.id ∧ x.cloud = w.cloud ∧
      x.name = w.name ∧ x.extra = w.extra ∧ x.content = w.content := by
    intro x hx
    rw [hdb₁] at hx
    exact mem_missingMaps hx
  have hidnm₁ : ∀ x ∈ db₁, x.id ∉ ns := by
    intro x hx
    obtain ⟨w, hw, hid, _⟩ := hmm₁ x hx
    rw [hid]
    exact hidnm' w hw
  have hdash₁ : ∀ x ∈ db₁, Dashless x.id := by
    intro x hx
    obtain ⟨w, hw, hid, _⟩ := hmm₁ x hx
    rw [hid]
    exact hdash' w hw
  have hun₁ : UniqueNames c db₁ := by
    intro x hx y hy hxc hyc hxy
    obtain ⟨w, hw, hidw, hclw, hnmw, _⟩ := hmm₁ x hx
    obtain ⟨v, hv, hidv, hclv, hnmv, _⟩ := hmm₁ y hy
    have hwv : w = v := hun' w hw v hv (by rw [← hclw, hxc])
      (by rw [← hclv, hyc]) (by rw [← hnmw, ← hnmv, hxy])
    exact List.inj_on_of_nodup_map hni₁ hx hy (by rw [hidw, hidv, hwv])
  have hA2 : ∀ x ∈ db₁, x.cloud = c → x.missing_since = none → x ∈ L := by
    intro x hx hxc hxm
    rw [hdb₁] at hx
    simp only [clearMissingById, markMissing, List.map_map] at hx
    rcases List.mem_map.1 hx with ⟨w, hw, hwe⟩
    simp only [Function.comp_apply] at hwe
    by_cases hwL : w ∈ L
    · obtain ⟨_, _, hnm, hid, _⟩ := hLmem w hwL
      have hcm : ¬((w.cloud == c && !nsL.contains w.name
          && w.missing_since.isNone) = true) := by
        intro hcond
        simp at hcond
        exact hcond.1.2 hnm
      rw [if_neg hcm] at hwe
      have hcc : ¬((w.cloud == c && nsL.contains w.id) = true) := by
        intro hcond
        simp at hcond
        exact hid hcond.2
      rw [if_neg hcc] at hwe
      rw [← hwe]
      exact hwL
    · have hwdb : w ∈ db := by
        rcases hold w hw with h | h
        · exact h
        · exact absurd h hwL
      have hwid : w.id ∉ nsL := by
        intro hmemid
        rcases List.mem_map.1 hmemid with ⟨s', hs', hs'e⟩
        obtain ⟨a', ha', hr'⟩ := forall₂_mem_right hfa s' hs'
        have hn' : s'.name = a'.name := (findRec_some hr'.1).2.2
        have : w.id ∈ ns := by
          apply hsub
          rw [← hs'e, hn']
          exact List.mem_map_of_mem _ ha'
        exact hidnm w hwdb this
      by_cases hwc : w.cloud = c
      · by_cases hwnm : w.name ∈ nsL
        · -- w is the unique (c, name) record, so it is the saved one in L
          rcases List.mem_map.1 hwnm with ⟨s', hs', hs'e⟩
          obtain ⟨hs'db, hs'c, _, _, _⟩ := hLmem s' hs'
          have hws : w = s' := hun' w hw s' hs'db hwc hs'c hs'e.symm
          rw [hws] at hwL
          exact absurd hs' hwL
        · -- w is marked missing, so x cannot have missing_since = none
          exfalso
          cases hwm : w.missing_since with
          | none =>
              have hcm : (w.cloud == c && !nsL.contains w.name
                  && w.missing_since.isNone) = true := by
                simp [hwc, hwnm, hwm]
              rw [if_pos hcm] at hwe
              have hcc : ¬((({ w with missing_since := some now }
                  : StoreRec).cloud == c && nsL.contains
                  ({ w with missing_since := some now } : StoreRec).id)
                  = true) := by
                intro hcond
                simp at hcond
                exact hwid hcond.2
              rw [if_neg hcc] at hwe
              rw [← hwe] at hxm
              simp at hxm
          | some m =>
              have hcm : ¬((w.cloud == c && !nsL.contains w.name
                  && w.missing_since.isNone) = true) := by
                intro hcond
                simp [hwm] at hcond
              rw [if_neg hcm] at hwe
              have hcc : ¬((w.cloud == c && nsL.contains w.id) = true) := by
                intro hcond
                simp at hcond
                exact hwid hcond.2
              rw [if_neg hcc] at hwe
              rw [← hwe] at hxm
              rw [hwm] at hxm
              cases hxm
      · exfalso
        have hcm : ¬((w.cloud == c && !nsL.contains w.name
            && w.missing_since.isNone) = true) := by
          intro hcond
          simp at hcond
          exact hwc hcond.1.1
        rw [if_neg hcm] at hwe
        have hcc : ¬((w.cloud == c && nsL.contains w.id) = true) := by
          intro hcond
          simp at hcond
          exact hwc hcond.1
        rw [if_neg hcc] at hwe
        rw [← hwe] at hxc
        exact hwc hxc
  have hfa₁ : List.Forall₂ (fun it s =>
      findRec c it.name db₁ = some s ∧ s.extra = coerceExtra it.extra ∧
      (∃ co, it.contentFetch = .ok co ∧ s.content = co) ∧
      s.missing_since = none) items L := by
    refine forall₂_imp_mem hfa ?_
    intro a s ha hs hr
    obtain ⟨hmem, _, hnm, hid, _⟩ := hLmem s hs
    refine ⟨?_, hr.2.1, hr.2.2.1, hr.2.2.2⟩
    rw [hdb₁]
    simp only [clearMissingById, markMissing]
    rw [findRec_map_pres (fun r => ⟨(clearMissing_pres c nsL r).1,
      (clearMissing_pres c nsL r).2.1⟩)]
    rw [findRec_map_pres (fun r => ⟨(markMissing_pres c now nsL r).1,
      (markMissing_pres c now nsL r).2.1⟩)]
    rw [hr.1]
    simp only [Option.map_some']
    have hcm : ¬((s.cloud == c && !nsL.contains s.name
        && s.missing_since.isNone) = true) := by
      intro hcond
      simp at hcond
      exact hcond.1.2 hnm
    rw [if_neg hcm]
    have hcc : ¬((s.cloud == c && nsL.contains s.id) = true) := by
      intro hcond
      simp at hcond
      exact hid hcond.2
    rw [if_neg hcc]
  exact ⟨db₁, L, by rw [hinner], hdbeq, hstor, hfa₁, hun₁, hni₁, hidnm₁,
    hdash₁, hA2, hLdb₁⟩

theorem list_storage_components {c : String} {now : Nat}
    {fetched : Except Unit (List Item)} {obsL ownL : Bool}
    {db : DB} {fresh : Nat} {ls : Option Nat}
    (h : (listStorageInner c now fetched db fresh).err = none) :
    (list_storage c now fetched obsL ownL db fresh ls).err = none ∧
    (list_storage c now fetched obsL ownL db fresh ls).db =
      (listStorageInner c now fetched db fresh).db ∧
    (list_storage c now fetched obsL ownL db fresh ls).fresh =
      (listStorageInner c now fetched db fresh).fresh ∧
    (list_storage c now fetched obsL ownL db fresh ls).lastSuccess =
      some now ∧
    (list_storage c now fetched obsL ownL db fresh ls).storage =
      (listStorageInner c now fetched db fresh).storage := by
  simp only [list_storage]
  split
  · next e heq => rw [heq] at h; cases h
  · split
    · exact ⟨rfl, rfl, rfl, rfl, rfl⟩
    · split
      · exact ⟨rfl, rfl, rfl, rfl, rfl⟩
      · exact ⟨rfl, rfl, rfl, rfl, rfl⟩

theorem list_storage_quiet {c : String} {now : Nat}
    {fetched : Except Unit (List Item)} {obsL ownL : Bool}
    {db : DB} {fresh : Nat} {ls : Option Nat}
    (hpatch : snapDiff (snapshotOf (list_cached_storage c db))
      (snapshotOf (listStorageInner c now fetched db fresh).storage) = []) :
    (list_storage c now fetched obsL ownL db fresh ls).didLog = false ∧
    (list_storage c now fetched obsL ownL db fresh ls).didPublish = false := by
  simp only [list_storage]
  split
  · exact ⟨rfl, rfl⟩
  · split
    · exact ⟨rfl, rfl⟩
    · split
      · exact ⟨rfl, rfl⟩
      · next hne =>
          exfalso
          rw [hpatch] at hne
          simp at hne

/-- Claim C6 (amended): running `list_storage` twice with an unchanged
provider response (all content fetches and saves succeeding, response
names distinct) is idempotent provided no stored record of the cloud
that bears a response name is marked missing beforehand and record ids
are opaque (pairwise distinct, dash-free, never re-issued and never
equal to a container name): the first pass succeeds, the second pass
creates no new records — every item resolves to an existing record by
`(cloud, name)` — its before/after JSON-patch diff is empty, and it
neither logs an observation nor publishes. -/
theorem c6_second_pass_idempotent
    (c : String) (now₁ now₂ : Nat) (obsL ownL : Bool) (ls : Option Nat)
    (items : List Item) (db : DB) (fresh : Nat)
    (hsv : ∀ it ∈ items, it.saveOutcome = .ok)
    (hcf : ∀ it ∈ items, ∃ co, it.contentFetch = .ok co)
    (hnn : (items.map Item.name).Nodup)
    (hun : UniqueNames c db)
    (hni : (db.map StoreRec.id).Nodup)
    (hif : IdsFresh db fresh)
    (hmiss : ∀ r ∈ db, r.cloud = c → r.missing_since ≠ none →
      r.name ∉ items.map Item.name)
    (hidnm : ∀ r ∈ db, r.id ∉ items.map Item.name)
    (hfnm : ∀ k, freshId k ∉ items.map Item.name)
    (hdash : ∀ r ∈ db, Dashless r.id) :
    (list_storage c now₁ (.ok items) obsL ownL db fresh ls).err = none ∧
    (listStorageInner c now₂ (.ok items)
      (list_storage c now₁ (.ok items) obsL ownL db fresh ls).db
      (list_storage c now₁ (.ok items) obsL ownL db fresh ls).fresh
      ).newStorage = [] ∧
    snapDiff
      (snapshotOf (list_cached_storage c
        (list_storage c now₁ (.ok items) obsL ownL db fresh ls).db))
      (snapshotOf ((listStorageInner c now₂ (.ok items)
        (list_storage c now₁ (.ok items) obsL ownL db fresh ls).db
        (list_storage c now₁ (.ok items) obsL ownL db fresh ls).fresh
        ).storage)) = [] ∧
    (list_storage c now₂ (.ok items) obsL ownL
      (list_storage c now₁ (.ok items) obsL ownL db fresh ls).db
      (list_storage c now₁ (.ok items) obsL ownL db fresh ls).fresh
      (list_storage c now₁ (.ok items) obsL ownL db fresh ls).lastSuccess
      ).didLog = false ∧
    (list_storage c now₂ (.ok items) obsL ownL
      (list_storage c now₁ (.ok items) obsL ownL db fresh ls).db
      (list_storage c now₁ (.ok items) obsL ownL db fresh ls).fresh
      (list_storage c now₁ (.ok items) obsL ownL db fresh ls).lastSuccess
      ).didPublish = false := by
  obtain ⟨db₁, L, herr₁, hdb₁, hstor₁, hfa₁, hun₁, hni₁, hidnm₁, hdash₁,
      hA2, hLdb₁⟩ :=
    @listStorageInner_pass c (items.map Item.name) now₁ items db fresh
      hsv hcf hnn (fun n hn => hn) hun hni hif hmiss hidnm hfnm hdash
  obtain ⟨hoerr, hodb, hofresh, hols, _⟩ :=
    @list_storage_components _ _ _ obsL ownL _ _ ls herr₁
  have hLname : L.map StoreRec.name = items.map Item.name :=
    forall₂_map_eq (fun a b hab => (findRec_some hab.1).2.2) hfa₁
  have hrun₂ : runItems c
      ⟨db₁, (listStorageInner c now₁ (.ok items) db fresh).fresh, [], []⟩
      items =
      (⟨db₁, (listStorageInner c now₁ (.ok items) db fresh).fresh,
        [] ++ L, []⟩, none) :=
    runItems_synced hsv
      (forall₂_imp_mem hfa₁ (fun a b _ _ hr => ⟨hr.1, hr.2.1, hr.2.2.1⟩))
      (fun x hx y hy hxy => List.inj_on_of_nodup_map hni₁ hx hy hxy)
  have herr₂ : (runItems c
      ⟨db₁, (listStorageInner c now₁ (.ok items) db fresh).fresh, [], []⟩
      items).2 = none := by rw [hrun₂]
  have hinner₂ := @listStorageInner_ok c now₂ _ _ _ herr₂
  have hnew₂ : (listStorageInner c now₂ (.ok items) db₁
      (listStorageInner c now₁ (.ok items) db fresh).fresh).newStorage
      = [] := by
    rw [hinner₂, hrun₂]
  have hstor₂ : (listStorageInner c now₂ (.ok items) db₁
      (listStorageInner c now₁ (.ok items) db fresh).fresh).storage = L := by
    rw [hinner₂, hrun₂]
    simp
  have hLfacts : ∀ s ∈ L, s ∈ db₁ ∧ s.cloud = c ∧
      s.missing_since = none ∧ Dashless s.id := by
    intro s hs
    obtain ⟨a, ha, hr⟩ := forall₂_mem_right hfa₁ s hs
    have hm := (findRec_some hr.1).1
    exact ⟨hm, (findRec_some hr.1).2.1, hr.2.2.2, hdash₁ s hm⟩
  have hmemiff : ∀ x, x ∈ list_cached_storage c db₁ ↔ x ∈ L := by
    intro x
    simp only [list_cached_storage]
    constructor
    · intro hx
      obtain ⟨hxdb, hpred⟩ := List.mem_filter.1 hx
      simp only [Bool.and_eq_true, beq_iff_eq,
        Option.isNone_iff_eq_none] at hpred
      exact hA2 x hxdb hpred.1 hpred.2
    · intro hx
      obtain ⟨hm, hc, hmn, _⟩ := hLfacts x hx
      refine List.mem_filter.2 ⟨hm, ?_⟩
      simp [hc, hmn]
  have hids_cached : ((list_cached_storage c db₁).map StoreRec.id).Nodup := by
    simp only [list_cached_storage]
    exact List.Nodup.sublist
      (List.Sublist.map StoreRec.id (List.filter_sublist db₁)) hni₁
  have hcached_sub : ∀ x ∈ list_cached_storage c db₁, x ∈ db₁ := by
    intro x hx
    simp only [list_cached_storage] at hx
    exact (List.mem_filter.1 hx).1
  have hkeys_cached :
      ((snapshotOf (list_cached_storage c db₁)).map Prod.fst).Nodup := by
    have hkm : (snapshotOf (list_cached_storage c db₁)).map Prod.fst =
        (list_cached_storage c db₁).map snapKey := by
      simp [snapshotOf, List.map_map]
    rw [hkm]
    apply List.Nodup.map_on
    · intro x hx y hy hxy
      have hxdb := hcached_sub x hx
      have hydb := hcached_sub y hy
      have hid := (snapKey_inj (hdash₁ x hxdb) (hdash₁ y hydb) hxy).1
      exact List.inj_on_of_nodup_map hni₁ hxdb hydb hid
    · exact List.Nodup.of_map StoreRec.id hids_cached
  have hnamesL : (L.map StoreRec.name).Nodup := by rw [hLname]; exact hnn
  have hkeys_after : ((snapshotOf L).map Prod.fst).Nodup := by
    have hkm : (snapshotOf L).map Prod.fst = L.map snapKey := by
      simp [snapshotOf, List.map_map]
    rw [hkm]
    apply List.Nodup.map_on
    · intro x hx y hy hxy
      have hnm := (snapKey_inj (hLfacts x hx).2.2.2 (hLfacts y hy).2.2.2
        hxy).2
      exact List.inj_on_of_nodup_map hnamesL hx hy hnm
    · exact List.Nodup.of_map StoreRec.name hnamesL
  have hsnapiff : ∀ p, p ∈ snapshotOf (list_cached_storage c db₁) ↔
      p ∈ snapshotOf L := by
    intro p
    simp only [snapshotOf, List.mem_map]
    constructor
    · rintro ⟨r, hr, rfl⟩
      exact ⟨r, (hmemiff r).1 hr, rfl⟩
    · rintro ⟨r, hr, rfl⟩
      exact ⟨r, (hmemiff r).2 hr, rfl⟩
  have hdiff : snapDiff (snapshotOf (list_cached_storage c db₁))
      (snapshotOf L) = [] :=
    snapDiff_nil hsnapiff hkeys_cached hkeys_after
  have hpatch₂ : snapDiff (snapshotOf (list_cached_storage c db₁))
      (snapshotOf ((listStorageInner c now₂ (.ok items) db₁
        (listStorageInner c now₁ (.ok items) db fresh).fresh).storage))
      = [] := by
    rw [hstor₂]
    exact hdiff
  have hquiet := @list_storage_quiet _ _ _ obsL ownL _ _
    (some now₁) hpatch₂
  refine ⟨hoerr, ?_, ?_, ?_, ?_⟩
  · rw [hodb, hdb₁, hofresh]
    exact hnew₂
  · rw [hodb, hdb₁, hofresh]
    exact hpatch₂
  · rw [hodb, hdb₁, hofresh, hols]
    exact hquiet.1
  · rw [hodb, hdb₁, hofresh, hols]
    exact hquiet.2

/-- Claim C6 (counterexample): the cloud has one stored record named `b`
marked missing since 5 while the provider still lists `b`; running
`list_storage` twice with this unchanged response leaves a non-empty
diff on the second pass — it publishes again (and logs, the task now
having a `last_success`) — even though the second pass creates no new
record; so the second pass's diff is not empty and something is
published, contrary to the claim. -/
theorem c6_missing_record_breaks_idempotence :
    (list_storage "c" 20 (.ok [⟨"b", [], .ok [], .ok⟩]) true true
      (list_storage "c" 10 (.ok [⟨"b", [], .ok [], .ok⟩]) true true
        [⟨"xid0", "c", "b", [], [], some 5⟩] 0 none).db
      (list_storage "c" 10 (.ok [⟨"b", [], .ok [], .ok⟩]) true true
        [⟨"xid0", "c", "b", [], [], some 5⟩] 0 none).fresh
      (list_storage "c" 10 (.ok [⟨"b", [], .ok [], .ok⟩]) true true
        [⟨"xid0", "c", "b", [], [], some 5⟩] 0 none).lastSuccess
      ).didPublish = true ∧
    (listStorageInner "c" 20 (.ok [⟨"b", [], .ok [], .ok⟩])
      (list_storage "c" 10 (.ok [⟨"b", [], .ok [], .ok⟩]) true true
        [⟨"xid0", "c", "b", [], [], some 5⟩] 0 none).db
      (list_storage "c" 10 (.ok [⟨"b", [], .ok [], .ok⟩]) true true
        [⟨"xid0", "c", "b", [], [], some 5⟩] 0 none).fresh
      ).newStorage = [] := by
  decide

/-- Witness for C6 (amended): a cloud with one non-missing record named
`b` and the same single-container response twice; the first pass
succeeds and the second publishes nothing. -/
theorem c6_second_pass_idempotent_witness :
    (list_storage "c" 10 (.ok [⟨"b", [], .ok [], .ok⟩]) true true
      [⟨"xid0", "c", "b", [], [], none⟩] 0 none).err = none ∧
    (list_storage "c" 20 (.ok [⟨"b", [], .ok [], .ok⟩]) true true
      (list_storage "c" 10 (.ok [⟨"b", [], .ok [], .ok⟩]) true true
        [⟨"xid0", "c", "b", [], [], none⟩] 0 none).db
      (list_storage "c" 10 (.ok [⟨"b", [], .ok [], .ok⟩]) true true
        [⟨"xid0", "c", "b", [], [], none⟩] 0 none).fresh
      (list_storage "c" 10 (.ok [⟨"b", [], .ok [], .ok⟩]) true true
        [⟨"xid0", "c", "b", [], [], none⟩] 0 none).lastSuccess
      ).didPublish = false := by
  have h := c6_second_pass_idempotent "c" 10 20 true true none
    [⟨"b", [], .ok [], .ok⟩] [⟨"xid0", "c", "b", [], [], none⟩] 0
    (fun it hit => by rw [List.mem_singleton.1 hit])
    (fun it hit => ⟨[], by rw [List.mem_singleton.1 hit]⟩)
    (by decide)
    (fun r hr r' hr' _ _ _ => by
      rw [List.mem_singleton.1 hr, List.mem_singleton.1 hr'])
    (by decide)
    (fun r hr k _ => by
      rw [List.mem_singleton.1 hr]
      exact ne_freshId_of_head k (by decide))
    (fun r hr _ hm => by
      rw [List.mem_singleton.1 hr] at hm
      exact absurd rfl hm)
    (fun r hr => by
      rw [List.mem_singleton.1 hr]
      decide)
    (fun k hmem => ne_freshId_of_head k (by decide)
      (List.mem_singleton.1 hmem).symm)
    (fun r hr => by
      rw [List.mem_singleton.1 hr]
      simp only [Dashless]
      decide)
  exact ⟨h.1, h.2.2.2.2⟩

end MistStorage
